import Mathlib

/-!
# Verification of the NARS-Python reasoning core

A shallow embedding, in Lean 4, of the parts of the NARS-Python repository
that the specification's claims are about:

* the Narsese syntax tables (`Copula`, `TermConnector`),
* the term model with canonical string form and the interning parser
  (`src/NALGrammar/Terms.py`),
* the truth-value calculus and the inference rules
  (`src/NALInferenceRules.py`),
* the inference dispatcher (`src/NARSInferenceEngine.py`),
* the occurrence-time helper (`src/NALInferenceRules/HelperFunctions.py`),
* the bounded probabilistic priority container (`src/NARSDataStructures/Bag.py`).

Python floats are embedded as rational numbers; occurrence times (working
cycle numbers) as integers.  A Python function that can raise on the
modelled inputs (assertion failure, unbound local, division by zero,
attribute or index error) is embedded as an `Option`-returning function,
with `none` for the raising executions.

Several support modules of the repository (`NALSyntax.py`, `NALGrammar.py`,
`Config.py`, `NARSDataStructures/ItemContainers.py`,
`NARSDataStructures/Other.py`) are not part of the source snapshot; the
definitions that stand in for them are marked `Modelled from the spec:` and
follow the specification's wording.
-/

/-! ## Syntax tables -/

/-- Modelled from the spec: the copula table of `NALSyntax.py` (not under
src).  The nine copulas with their three-character wire tokens. -/
inductive Copula where
  | inheritance
  | similarity
  | implication
  | equivalence
  | predictiveImplication
  | concurrentImplication
  | retrospectiveImplication
  | predictiveEquivalence
  | concurrentEquivalence
deriving DecidableEq, Repr

/-- Modelled from the spec: the wire token of each copula. -/
def Copula.value : Copula → String
  | .inheritance => "-->"
  | .similarity => "<->"
  | .implication => "==>"
  | .equivalence => "<=>"
  | .predictiveImplication => "=/>"
  | .concurrentImplication => "=|>"
  | .retrospectiveImplication => "=\\>"
  | .predictiveEquivalence => "</>"
  | .concurrentEquivalence => "<|>"

/-- Modelled from the spec: a copula is symmetric when it is a similarity or
an equivalence (plain or temporal); the implications and inheritance are
asymmetric. -/
def Copula.is_symmetric : Copula → Bool
  | .similarity => true
  | .equivalence => true
  | .predictiveEquivalence => true
  | .concurrentEquivalence => true
  | _ => false

/-- Modelled from the spec: inheritance and similarity are the first-order
copulas; the implication and equivalence families are higher-order. -/
def Copula.is_first_order : Copula → Bool
  | .inheritance => true
  | .similarity => true
  | _ => false

/-- Modelled from the spec: parse a three-character slice into a copula
(`NALSyntax.Copula.get_copula_from_string`). -/
def copula_from_chars (l : List Char) : Option Copula :=
  if l = "-->".data then some .inheritance
  else if l = "<->".data then some .similarity
  else if l = "==>".data then some .implication
  else if l = "<=>".data then some .equivalence
  else if l = "=/>".data then some .predictiveImplication
  else if l = "=|>".data then some .concurrentImplication
  else if l = "=\\>".data then some .retrospectiveImplication
  else if l = "</>".data then some .predictiveEquivalence
  else if l = "<|>".data then some .concurrentEquivalence
  else none

/-- Modelled from the spec: the term-connector table of `NALSyntax.py`
(not under src). -/
inductive TermConnector where
  | extensionalIntersection
  | intensionalIntersection
  | extensionalDifference
  | intensionalDifference
  | product
  | extensionalImage
  | intensionalImage
  | imagePlaceholder
  | negation
  | conjunction
  | disjunction
  | sequentialConjunction
  | parallelConjunction
  | extensionalSetStart
  | intensionalSetStart
  | extensionalSetEnd
  | intensionalSetEnd
  | array
deriving DecidableEq, Repr

/-- Modelled from the spec: the wire token of each term connector.
The set brackets are the curly (extensional) and square (intensional)
brackets. -/
def TermConnector.value : TermConnector → String
  | .extensionalIntersection => "&"
  | .intensionalIntersection => "|"
  | .extensionalDifference => "-"
  | .intensionalDifference => "~"
  | .product => "*"
  | .extensionalImage => "/"
  | .intensionalImage => "\\"
  | .imagePlaceholder => "_"
  | .negation => "--"
  | .conjunction => "&&"
  | .disjunction => "||"
  | .sequentialConjunction => "&/"
  | .parallelConjunction => "&|"
  | .extensionalSetStart => "\x7b"
  | .intensionalSetStart => "["
  | .extensionalSetEnd => "\x7d"
  | .intensionalSetEnd => "]"
  | .array => "@"

/-- Modelled from the spec: parse a one- or two-character slice into a term
connector (`NALSyntax.TermConnector.get_term_connector_from_string`). -/
def term_connector_from_chars (l : List Char) : Option TermConnector :=
  if l = "&".data then some .extensionalIntersection
  else if l = "|".data then some .intensionalIntersection
  else if l = "-".data then some .extensionalDifference
  else if l = "~".data then some .intensionalDifference
  else if l = "*".data then some .product
  else if l = "/".data then some .extensionalImage
  else if l = "\\".data then some .intensionalImage
  else if l = "_".data then some .imagePlaceholder
  else if l = "--".data then some .negation
  else if l = "&&".data then some .conjunction
  else if l = "||".data then some .disjunction
  else if l = "&/".data then some .sequentialConjunction
  else if l = "&|".data then some .parallelConjunction
  else if l = "\x7b".data then some .extensionalSetStart
  else if l = "[".data then some .intensionalSetStart
  else if l = "\x7d".data then some .extensionalSetEnd
  else if l = "]".data then some .intensionalSetEnd
  else if l = "@".data then some .array
  else none

/-- Modelled from the spec: the order-invariant connectors, whose children
are stored in canonical lexicographic order (intersections,
union/disjunction, parallel conjunction, sets). -/
def TermConnector.is_order_invariant : TermConnector → Bool
  | .extensionalIntersection => true
  | .intensionalIntersection => true
  | .disjunction => true
  | .parallelConjunction => true
  | .extensionalSetStart => true
  | .intensionalSetStart => true
  | _ => false

/-- Modelled from the spec: the statement-level (higher-order) connectors
are negation, conjunction, disjunction and the temporal conjunctions; every
other connector is first-order. -/
def TermConnector.is_first_order : TermConnector → Bool
  | .negation => false
  | .conjunction => false
  | .disjunction => false
  | .sequentialConjunction => false
  | .parallelConjunction => false
  | _ => true

/-- Modelled from the spec: the closing bracket matching a set opener
(`NALSyntax.TermConnector.get_set_end_connector_from_set_start_connector`). -/
def TermConnector.set_end_of : TermConnector → Option TermConnector
  | .extensionalSetStart => some .extensionalSetEnd
  | .intensionalSetStart => some .intensionalSetEnd
  | _ => none

/-- Code point 123 is the opening curly brace, 91 the opening square
bracket (`NALSyntax.TermConnector.is_set_bracket_start`). -/
def is_set_bracket_start (c : Char) : Bool :=
  c.val = 123 || c.val = 91

/-- Code point 125 is the closing curly brace, 93 the closing square
bracket (`NALSyntax.TermConnector.is_set_bracket_end`). -/
def is_set_bracket_end (c : Char) : Bool :=
  c.val = 125 || c.val = 93

/-! ## The term model (`src/NALGrammar/Terms.py`) -/

/-- The kind of a variable term (`VariableTerm.Type`). -/
inductive VarType where
  | independent
  | dependent
  | query
deriving DecidableEq, Repr

/-- The recursive term value of `src/NALGrammar/Terms.py`:

* `atomic` is `AtomicTerm` (a bare word),
* `varT` is `VariableTerm` (the parser leaves the dependency list either
  absent or empty, it never fills entries in),
* `compound` is `CompoundTerm` (connector plus ordered subterms),
* `statement` is `StatementTerm` (optional statement connector, optional
  copula, one or two subterms).

Array terms are not embedded: constructing one reads the global concept
memory, which is stateful and outside this pure model. -/
inductive Term where
  | atomic (name : String)
  | varT (symbol : String) (name : String) (deps : Option (List String))
  | compound (connector : TermConnector) (subterms : List Term)
  | statement (connector : Option TermConnector) (copula : Option Copula)
      (subterms : List Term)
deriving Repr

mutual

/-- Structural boolean equality on terms (decidability support for the
nested inductive). -/
def Term.beq : Term → Term → Bool
  | .atomic a, .atomic b => decide (a = b)
  | .varT s1 n1 d1, .varT s2 n2 d2 =>
      decide (s1 = s2) && decide (n1 = n2) && decide (d1 = d2)
  | .compound c1 l1, .compound c2 l2 => decide (c1 = c2) && termListBeq l1 l2
  | .statement c1 k1 l1, .statement c2 k2 l2 =>
      decide (c1 = c2) && decide (k1 = k2) && termListBeq l1 l2
  | _, _ => false

/-- Structural boolean equality on term lists. -/
def termListBeq : List Term → List Term → Bool
  | [], [] => true
  | a :: as_, b :: bs => Term.beq a b && termListBeq as_ bs
  | _, _ => false

end

mutual

theorem Term.beq_iff : ∀ a b : Term, Term.beq a b = true ↔ a = b
  | .atomic a, .atomic b => by simp [Term.beq]
  | .atomic _, .varT _ _ _ => by simp [Term.beq]
  | .atomic _, .compound _ _ => by simp [Term.beq]
  | .atomic _, .statement _ _ _ => by simp [Term.beq]
  | .varT _ _ _, .atomic _ => by simp [Term.beq]
  | .varT s1 n1 d1, .varT s2 n2 d2 => by simp [Term.beq, and_assoc]
  | .varT _ _ _, .compound _ _ => by simp [Term.beq]
  | .varT _ _ _, .statement _ _ _ => by simp [Term.beq]
  | .compound _ _, .atomic _ => by simp [Term.beq]
  | .compound _ _, .varT _ _ _ => by simp [Term.beq]
  | .compound c1 l1, .compound c2 l2 => by
      simp [Term.beq, termListBeq_iff l1 l2]
  | .compound _ _, .statement _ _ _ => by simp [Term.beq]
  | .statement _ _ _, .atomic _ => by simp [Term.beq]
  | .statement _ _ _, .varT _ _ _ => by simp [Term.beq]
  | .statement _ _ _, .compound _ _ => by simp [Term.beq]
  | .statement c1 k1 l1, .statement c2 k2 l2 => by
      simp [Term.beq, termListBeq_iff l1 l2, and_assoc]

theorem termListBeq_iff : ∀ l1 l2 : List Term, termListBeq l1 l2 = true ↔ l1 = l2
  | [], [] => by simp [termListBeq]
  | [], _ :: _ => by simp [termListBeq]
  | _ :: _, [] => by simp [termListBeq]
  | a :: as_, b :: bs => by
      simp [termListBeq, Term.beq_iff a b, termListBeq_iff as_ bs]

end

instance : DecidableEq Term :=
  fun a b => decidable_of_iff (Term.beq a b = true) (Term.beq_iff a b)

/-- `VariableTerm.get_formatted_string`: the dependency suffix.  With an
absent list it is empty; with a present list the code writes an opening
parenthesis, one `dep,` per entry, then drops the final character and
closes — so a present-but-empty list yields a bare closing parenthesis. -/
def depListString : Option (List String) → String
  | none => ""
  | some ds =>
      let s := "(" ++ String.join (ds.map (fun d => d ++ ","))
      ⟨s.data.dropLast⟩ ++ ")"

/-- Interleave the term divider (comma) between formatted subterm strings,
as `CompoundTerm.get_formatted_string` does (append a trailing comma per
subterm, then drop the final one). -/
def joinComma (l : List String) : String :=
  ⟨(String.join (l.map (fun s => s ++ ","))).data.dropLast⟩

mutual

/-- `get_formatted_string`: the canonical string form of a term.

* atomic: its word;
* variable: sigil, name, dependency suffix;
* compound, set connector: opening bracket, children joined by commas,
  matching closing bracket;
* compound, other connector: `(connector,child,...,child)`;
* statement with two subterms and a copula:
  `(subject copula predicate)` with single spaces — note the statement
  connector is not printed in this case, exactly as in
  `StatementTerm.get_formatted_string`;
* statement with fewer than two subterms: the compound format with the
  statement connector.

Combinations the source cannot build (a compound-formatted statement with
no connector, a two-subterm statement with no copula) format as the empty
string. -/
def Term.fmt : Term → String
  | .atomic name => name
  | .varT symbol name deps => symbol ++ name ++ depListString deps
  | .compound connector subterms =>
      match connector.set_end_of with
      | some endc =>
          connector.value ++ joinComma (fmtList subterms) ++ endc.value
      | none =>
          "(" ++ connector.value ++ "," ++ joinComma (fmtList subterms) ++ ")"
  | .statement connector copula subterms =>
      match subterms, copula with
      | [s, p], some cop =>
          "(" ++ Term.fmt s ++ " " ++ cop.value ++ " " ++ Term.fmt p ++ ")"
      | subs, _ =>
          match connector with
          | some conn =>
              match conn.set_end_of with
              | some endc => conn.value ++ joinComma (fmtList subs) ++ endc.value
              | none => "(" ++ conn.value ++ "," ++ joinComma (fmtList subs) ++ ")"
          | none => ""

/-- Formatted strings of a list of terms. -/
def fmtList : List Term → List String
  | [] => []
  | t :: ts => Term.fmt t :: fmtList ts

end

/-- Python string comparison: lexicographic on code points. -/
def strLtB : List Char → List Char → Bool
  | [], [] => false
  | [], _ :: _ => true
  | _ :: _, [] => false
  | a :: as_, b :: bs =>
      if a.val < b.val then true
      else if b.val < a.val then false
      else strLtB as_ bs

/-- Insert a term into a list sorted by formatted string, before the first
strictly larger element. -/
def insertByFmt (x : Term) : List Term → List Term
  | [] => [x]
  | y :: ys =>
      if strLtB (Term.fmt x).data (Term.fmt y).data then x :: y :: ys
      else y :: insertByFmt x ys

/-- `subterms.sort(key=lambda t: str(t))`: sort subterms by their canonical
string (ascending, by code point). -/
def sortByFmt (l : List Term) : List Term :=
  l.foldr insertByFmt []

/-- The pure part of the `CompoundTerm` constructor, used by the inference
rules: sort the subterms when the connector is order-invariant and there is
more than one of them.  (The multi-element-set rewrite of the constructor
is in `compound_mk` below; the rules never build set terms.) -/
def compound_mk_pure (subterms : List Term) (connector : TermConnector) : Term :=
  if subterms.length > 1 && connector.is_order_invariant then
    Term.compound connector (sortByFmt subterms)
  else
    Term.compound connector subterms

/-- Python term equality (`Term.__eq__`): the canonical strings are equal. -/
def termEq (a b : Term) : Bool :=
  Term.fmt a == Term.fmt b

/-! ## The interning parser (`Term.from_string` and friends) -/

/-- Python slice `l[a:b]` for non-negative bounds. -/
def pySlice (l : List Char) (a b : Nat) : List Char :=
  (l.take b).drop a

/-- `str.find`: index of the first occurrence of a character, if any. -/
def findChar (l : List Char) (c : Char) : Option Nat :=
  l.findIdx? (fun x => x = c)

/-- Loop body of `get_top_level_copula`: walk the characters keeping a
depth counter; parentheses adjust the depth, and at depth 1 any
three-character copula token is recorded (a later match overwrites an
earlier one, as in the source). -/
def gtlc_go (full : List Char) :
    List Char → Nat → Int → Option (Copula × Nat) → Option (Copula × Nat)
  | [], _, _, acc => acc
  | c :: rest, i, depth, acc =>
      if c = '(' then gtlc_go full rest (i + 1) (depth + 1) acc
      else if c = ')' then gtlc_go full rest (i + 1) (depth - 1) acc
      else if depth = 1 ∧ i + 3 ≤ full.length then
        match copula_from_chars (pySlice full i (i + 3)) with
        | some cop => gtlc_go full rest (i + 1) depth (some (cop, i))
        | none => gtlc_go full rest (i + 1) depth acc
      else gtlc_go full rest (i + 1) depth acc

/-- `get_top_level_copula`: the top-level copula of a statement string and
its index, if present. -/
def get_top_level_copula (l : List Char) : Option (Copula × Nat) :=
  gtlc_go l l 0 0 none

/-- `VariableTerm.from_string` (with the sigil taken from the first
character).  The dependency-list entries are never parsed by the source;
only the emptiness of the text between the parentheses matters. -/
def variable_from_string (l : List Char) : Option Term :=
  match l with
  | [] => none
  | sym :: _ =>
    let name_and_deps :=
      match findChar l '(' with
      | none => ((l.drop 1), ([] : List Char))
      | some i =>
          let depstr :=
            match findChar l ')' with
            | some j => pySlice l (i + 1) j
            | none => (l.drop (i + 1)).dropLast
          (pySlice l 1 i, depstr)
    let deps : Option (List String) :=
      if name_and_deps.2.length > 0 then some [] else none
    if sym = '?' then
      some (Term.varT "?" (String.mk name_and_deps.1) deps)
    else if sym = '#' then
      match deps with
      | none => some (Term.varT "#" (String.mk name_and_deps.1) none)
      | some ds => some (Term.varT "#" (String.mk name_and_deps.1) (some ds))
    else none

/-- `StatementTerm.__init__` with subject and predicate: a symmetric copula
stores its two terms sorted by canonical string. -/
def statement_mk (subject predicate : Term) (copula : Copula)
    (statement_connector : Option TermConnector) : Term :=
  let subterms := [subject, predicate]
  let subterms2 := if copula.is_symmetric then sortByFmt subterms else subterms
  Term.statement statement_connector (some copula) subterms2

/-- The intern table of `Term` (`Term.term_dict`): input string to the
identity (an allocation number standing for the Python object identity)
and value of the term constructed from it, plus the allocation counter. -/
structure InternState where
  dict : List (String × (Nat × Term))
  next : Nat
deriving DecidableEq, Repr

/-- Association-list lookup for the intern table. -/
def dictLookup (d : List (String × (Nat × Term))) (s : String) :
    Option (Nat × Term) :=
  match d with
  | [] => none
  | kv :: rest => if kv.1 = s then some kv.2 else dictLookup rest s

/-- Association-list store for the intern table (overwrite in place, else
append, like a Python dict). -/
def dictInsertTerm (d : List (String × (Nat × Term))) (s : String)
    (v : Nat × Term) : List (String × (Nat × Term)) :=
  match d with
  | [] => [(s, v)]
  | kv :: rest =>
      if kv.1 = s then (s, v) :: rest else kv :: dictInsertTerm rest s v

mutual

/-- `Term.from_string`: return the interned term when the input string is a
key of the intern table; otherwise dispatch on the first character, build
the term, intern it under the input string and return it.  The result
carries the allocation number modelling Python object identity.  The fuel
argument bounds the recursion depth; `none` is a failed parse (an assertion
or index error in the source) or exhausted fuel. -/
def term_from_string :
    Nat → InternState → String → Option ((Nat × Term) × InternState)
  | 0, _, _ => none
  | n + 1, st, s =>
    match dictLookup st.dict s with
    | some p => some (p, st)
    | none =>
      match build_term n st s with
      | none => none
      | some (t, st2) =>
        let idt := (st2.next, t)
        some (idt, ⟨dictInsertTerm st2.dict s idt, st2.next + 1⟩)

/-- The dispatch of `Term.from_string` past the intern-table check:
parenthesised strings are statements (when a top-level copula is present)
or compounds, bracketed strings are sets, `@` starts an array term (not
embedded: its construction reads the global concept memory), `#`/`?` start
variables, and anything else is an atomic term over the alphanumeric
alphabet. -/
def build_term : Nat → InternState → String → Option (Term × InternState)
  | 0, _, _ => none
  | n + 1, st, s =>
    match s.data with
    | [] => none
    | c0 :: _ =>
      if c0 = '(' then
        if s.data.getLast? = some ')' then
          match get_top_level_copula s.data with
          | some _ => statement_from_string n st s
          | none => compound_from_string n st s
        else none
      else if is_set_bracket_start c0 then compound_from_string n st s
      else if c0 = '@' then none
      else if c0 = '#' ∨ c0 = '?' then
        match variable_from_string s.data with
        | some t => some (t, st)
        | none => none
      else
        if s.data.all Char.isAlphanum then some (Term.atomic s, st) else none

/-- `CompoundTerm.from_string` /
`CompoundTerm.parse_toplevel_subterms_and_connector`: strip spaces and the
outer bracket pair, read the connector (the opening bracket itself for a
set, otherwise the leading one- or two-character token, which must be
followed by the term divider), split the remaining text at top-level
commas, parse each piece, and run the compound constructor. -/
def compound_from_string :
    Nat → InternState → String → Option (Term × InternState)
  | 0, _, _ => none
  | n + 1, st, s =>
    let l := s.data.filter (fun c => c ≠ ' ')
    match l with
    | [] => none
    | c0 :: _ =>
      let internal := (l.drop 1).dropLast
      match term_connector_from_chars [c0] with
      | some conn =>
        match split_subterms n st internal [] 0 [] with
        | none => none
        | some (subs, st2) => compound_mk n st2 subs conn
      | none =>
        match internal.get? 1 with
        | none => none
        | some c1 =>
          let connector_chars :=
            if c1 = ',' then internal.take 1 else internal.take 2
          match term_connector_from_chars connector_chars with
          | none => none
          | some conn =>
            let cv := conn.value.data
            if internal.get? cv.length = some ',' then
              match split_subterms n st (internal.drop (cv.length + 1)) [] 0 [] with
              | none => none
              | some (subs, st2) => compound_mk n st2 subs conn
            else none

/-- The subterm-splitting loop of
`CompoundTerm.parse_toplevel_subterms_and_connector`: parentheses and set
brackets adjust the depth; a comma at depth zero ends the current subterm
string, which is parsed through `term_from_string`. -/
def split_subterms :
    Nat → InternState → List Char → List Char → Int → List Term →
    Option (List Term × InternState)
  | 0, _, _, _, _, _ => none
  | n + 1, st, [], cur, _, acc =>
      match term_from_string n st (String.mk cur) with
      | none => none
      | some ((_, t), st2) => some (acc ++ [t], st2)
  | n + 1, st, c :: rest, cur, depth, acc =>
      let depth2 :=
        if c = '(' ∨ is_set_bracket_start c then depth + 1
        else if c = ')' ∨ is_set_bracket_end c then depth - 1
        else depth
      if c = ',' ∧ depth2 = 0 then
        match term_from_string n st (String.mk cur) with
        | none => none
        | some ((_, t), st2) => split_subterms n st2 rest [] depth2 (acc ++ [t])
      else split_subterms n st rest (cur ++ [c]) depth2 acc

/-- `CompoundTerm.__init__`: sort the subterms of an order-invariant
connector; rewrite a multi-element set into an intersection (of the
opposite polarity) of singleton sets, each singleton re-parsed from its
printed form as in the source. -/
def compound_mk :
    Nat → InternState → List Term → TermConnector → Option (Term × InternState)
  | 0, _, _, _ => none
  | n + 1, st, subterms, connector =>
    let subterms1 :=
      if subterms.length > 1 && connector.is_order_invariant then
        sortByFmt subterms
      else subterms
    let is_ext := connector.value = TermConnector.extensionalSetStart.value
    let is_int := connector.value = TermConnector.intensionalSetStart.value
    if (is_ext ∨ is_int) ∧ subterms1.length > 1 then
      match connector.set_end_of with
      | none => none
      | some endc =>
        match singleton_sets n st connector endc subterms1 with
        | none => none
        | some (singles, st2) =>
          let conn2 :=
            if is_ext then TermConnector.intensionalIntersection
            else TermConnector.extensionalIntersection
          some (Term.compound conn2 singles, st2)
    else
      some (Term.compound connector subterms1, st)

/-- The singleton-set decomposition loop of `CompoundTerm.__init__`: each
subterm is wrapped in brackets and re-parsed through
`CompoundTerm.from_string`. -/
def singleton_sets :
    Nat → InternState → TermConnector → TermConnector → List Term →
    Option (List Term × InternState)
  | 0, _, _, _, _ => none
  | _ + 1, st, _, _, [] => some ([], st)
  | n + 1, st, conn, endc, t :: ts =>
      match compound_from_string n st (conn.value ++ Term.fmt t ++ endc.value) with
      | none => none
      | some (s1, st2) =>
        match singleton_sets n st2 conn endc ts with
        | none => none
        | some (rest, st3) => some (s1 :: rest, st3)

/-- `StatementTerm.from_string`: strip a leading negation connector if
present, locate the top-level copula, parse the subject and predicate
slices, and run the statement constructor. -/
def statement_from_string :
    Nat → InternState → String → Option (Term × InternState)
  | 0, _, _ => none
  | n + 1, st, s =>
    let l0 := s.data
    let hasNeg := term_connector_from_chars (pySlice l0 1 3) = some TermConnector.negation
    let stmt_conn : Option TermConnector :=
      if hasNeg then some TermConnector.negation else none
    let l := if hasNeg then (l0.drop 4).dropLast else l0
    match get_top_level_copula l with
    | none => none
    | some (cop, idx) =>
      let subject_chars := pySlice l 1 idx
      let predicate_chars := pySlice l (idx + cop.value.data.length) (l.length - 1)
      match term_from_string n st (String.mk subject_chars) with
      | none => none
      | some ((_, subj), st2) =>
        match term_from_string n st2 (String.mk predicate_chars) with
        | none => none
        | some ((_, pred), st3) =>
          some (statement_mk subj pred cop stmt_conn, st3)

end

/-! ## Truth values and truth-value functions (`src/NALInferenceRules.py`) -/

/-- `(frequency, confidence)` pair, over exact rationals. -/
structure TruthValue where
  frequency : ℚ
  confidence : ℚ
deriving DecidableEq, Repr

/-- `band`: the product of its arguments. -/
def band (args : List ℚ) : ℚ :=
  args.foldl (fun r a => r * a) 1

/-- `bor`: one minus the product of the complements. -/
def bor (args : List ℚ) : ℚ :=
  1 - args.foldl (fun r a => r * (1 - a)) 1

/-- `bnot`: one minus the argument. -/
def bnot (a : ℚ) : ℚ := 1 - a

/-- Python's boolean `not` applied to a float and then used in arithmetic:
`not x` is `True` (worth 1) exactly when the float is zero, else `False`
(worth 0). -/
def pyNot (x : ℚ) : ℚ :=
  if x = 0 then 1 else 0

/-- `get_confidence_from_evidence`: `w / (w + k)` for the evidential-horizon
constant `k` (`Config.k`, not under src; the spec takes it as a positive
system constant, so it is a parameter here). -/
def get_confidence_from_evidence (k w : ℚ) : ℚ :=
  w / (w + k)

/-- `get_truthvalue_from_evidence`: frequency is `wp / w`, short-circuited
to 1 when `wp = w`; confidence from total evidence. -/
def get_truthvalue_from_evidence (k wp w : ℚ) : ℚ × ℚ :=
  (if wp = w then 1 else wp / w, get_confidence_from_evidence k w)

/-- `get_evidence_fromfreqconf`: `(w+, w, w−)` from `(f, c)`.  Callers
guarantee `c < 1`; at `c = 1` the Python code raises a division error,
while rational division by zero is total here. -/
def get_evidence_fromfreqconf (k f c : ℚ) : ℚ × ℚ × ℚ :=
  let wp := k * f * c / (1 - c)
  let w := k * c / (1 - c)
  (wp, w, w - wp)

/-- `F_Revision`: combine the positive and negative evidence of the two
premises. -/
def F_Revision (k wp1 wn1 wp2 wn2 : ℚ) : TruthValue :=
  let wp := wp1 + wp2
  let wn := wn1 + wn2
  let w := wp + wn
  let fc := get_truthvalue_from_evidence k wp w
  ⟨fc.1, fc.2⟩

/-- `F_Negation`. -/
def F_Negation (f c : ℚ) : TruthValue :=
  ⟨1 - f, c⟩

/-- `F_Conversion`: `w+ = w = and(f, c)`. -/
def F_Conversion (k f c : ℚ) : TruthValue :=
  let wp := band [f, c]
  let fc := get_truthvalue_from_evidence k wp wp
  ⟨fc.1, fc.2⟩

/-- `F_Contraposition`: `w+ = 0`, `w = and(not(f), c)`. -/
def F_Contraposition (k f c : ℚ) : TruthValue :=
  let wn := band [bnot f, c]
  let fc := get_truthvalue_from_evidence k 0 wn
  ⟨fc.1, fc.2⟩

/-- `F_Deduction`. -/
def F_Deduction (f1 c1 f2 c2 : ℚ) : TruthValue :=
  ⟨band [f1, f2], band [f1, f2, c1, c2]⟩

/-- `F_Analogy`. -/
def F_Analogy (f1 c1 f2 c2 : ℚ) : TruthValue :=
  ⟨band [f1, f2], band [f2, c1, c2]⟩

/-- `F_Resemblance`. -/
def F_Resemblance (f1 c1 f2 c2 : ℚ) : TruthValue :=
  ⟨band [f1, f2], band [bor [f1, f2], c1, c2]⟩

/-- `F_Abduction`. -/
def F_Abduction (k f1 c1 f2 c2 : ℚ) : TruthValue :=
  let fc := get_truthvalue_from_evidence k (band [f1, f2, c1, c2]) (band [f1, c1, c2])
  ⟨fc.1, fc.2⟩

/-- `F_Induction`. -/
def F_Induction (k f1 c1 f2 c2 : ℚ) : TruthValue :=
  let fc := get_truthvalue_from_evidence k (band [f1, f2, c1, c2]) (band [f2, c1, c2])
  ⟨fc.1, fc.2⟩

/-- `F_Exemplification`. -/
def F_Exemplification (k f1 c1 f2 c2 : ℚ) : TruthValue :=
  let wp := band [f1, f2, c1, c2]
  let fc := get_truthvalue_from_evidence k wp wp
  ⟨fc.1, fc.2⟩

/-- `F_Comparison`. -/
def F_Comparison (k f1 c1 f2 c2 : ℚ) : TruthValue :=
  let fc := get_truthvalue_from_evidence k (band [f1, f2, c1, c2])
      (band [bor [f1, f2], c1, c2])
  ⟨fc.1, fc.2⟩

/-- `F_Intersection`. -/
def F_Intersection (f1 c1 f2 c2 : ℚ) : TruthValue :=
  ⟨band [f1, f2], band [c1, c2]⟩

/-- `F_Union`. -/
def F_Union (f1 c1 f2 c2 : ℚ) : TruthValue :=
  ⟨bor [f1, f2], band [c1, c2]⟩

/-- `F_Difference`, exactly as written in the source: the second frequency
goes through Python's boolean `not` (`band(f1, not (f2))`), not through the
numeric complement `bnot`. -/
def F_Difference (f1 c1 f2 c2 : ℚ) : TruthValue :=
  ⟨band [f1, pyNot f2], band [c1, c2]⟩

/-- `F_Eternalization`. -/
def F_Eternalization (k f c : ℚ) : TruthValue :=
  ⟨f, 1 / (k + c)⟩

/-- `Expectation`: `c·(f − 0.5) + 0.5`. -/
def Expectation (f c : ℚ) : ℚ :=
  c * (f - 1/2) + 1/2

/-- `F_Projection`: project a belief from occurrence time `t_B` to target
time `t_T` when the current cycle number is `T_c`
(`Global.Global.get_current_cycle_number()`, passed as a parameter).  When
`|t_B − T_c| + |t_T − T_c| = 0` the source divides by zero, embedded as
`none`. -/
def F_Projection (frequency confidence : ℚ) (t_B t_T T_c : ℤ) :
    Option TruthValue :=
  let den : ℚ := |(t_B : ℚ) - (T_c : ℚ)| + |(t_T : ℚ) - (T_c : ℚ)|
  if den = 0 then none
  else
    let k_c := |(t_B : ℚ) - (t_T : ℚ)| / den
    some ⟨frequency, (1 - k_c) * confidence⟩

/-! ## Sentences (judgments and questions) -/

/-- Modelled from the spec: the sentence-level statement of `NALGrammar.py`
(not under src): subject term, predicate term, copula, and an optional
top-level statement connector. -/
structure Stmt where
  subject : Term
  predicate : Term
  copula : Copula
  connector : Option TermConnector
deriving DecidableEq, Repr

/-- Modelled from the spec: the statement constructor, following
`StatementTerm.__init__`: with a symmetric copula the two terms are stored
in canonical (lexicographic) order, so `get_subject_term` returns the
lexicographically first term. -/
def mkStmt (subject predicate : Term) (copula : Copula)
    (connector : Option TermConnector) : Stmt :=
  if copula.is_symmetric &&
      strLtB (Term.fmt predicate).data (Term.fmt subject).data then
    ⟨predicate, subject, copula, connector⟩
  else
    ⟨subject, predicate, copula, connector⟩

/-- The statement's term (`j.statement.term`), a `StatementTerm`. -/
def Stmt.toTerm (s : Stmt) : Term :=
  Term.statement s.connector (some s.copula) [s.subject, s.predicate]

/-- The canonical string of the statement's term. -/
def Stmt.fmt (s : Stmt) : String :=
  Term.fmt s.toTerm

/-- Modelled from the spec: a sentence is a judgment (statement, truth
value, stamp) or a question (statement, stamp); the stamp is reduced to the
optional occurrence time, the only stamp field the claims observe
(`NALGrammar.py` is not under src). -/
inductive Sentence where
  | judgment (statement : Stmt) (value : TruthValue) (occurrence_time : Option ℤ)
  | question (statement : Stmt) (occurrence_time : Option ℤ)
deriving DecidableEq, Repr

/-- `j.statement`. -/
def Sentence.statement : Sentence → Stmt
  | .judgment s _ _ => s
  | .question s _ => s

/-- `j.stamp.occurrence_time`. -/
def Sentence.occurrenceTime : Sentence → Option ℤ
  | .judgment _ _ o => o
  | .question _ o => o

/-- `j.value`: questions carry no value; accessing it raises in Python. -/
def Sentence.valueOf : Sentence → Option TruthValue
  | .judgment _ v _ => some v
  | .question _ _ => none

/-- `isinstance(j, Question)`. -/
def Sentence.isQuestion : Sentence → Bool
  | .judgment _ _ _ => false
  | .question _ _ => true

/-! ## Local and immediate inference rules (`src/NALInferenceRules.py`) -/

/-- `Revision`: asserts that the two statements have the same canonical
string, combines the evidence of the two premises, and builds the result
from the first premise's statement with the first premise's occurrence
time.  Reading the value of a question raises, embedded as `none`. -/
def Revision (k : ℚ) (j1 j2 : Sentence) : Option Sentence :=
  if Stmt.fmt j1.statement ≠ Stmt.fmt j2.statement then none
  else
    match j1.valueOf, j2.valueOf with
    | some v1, some v2 =>
        let e1 := get_evidence_fromfreqconf k v1.frequency v1.confidence
        let e2 := get_evidence_fromfreqconf k v2.frequency v2.confidence
        let result_truth := F_Revision k e1.1 e1.2.2 e2.1 e2.2.2
        let rs := mkStmt j1.statement.subject j1.statement.predicate
            j1.statement.copula none
        some (Sentence.judgment rs result_truth j1.occurrenceTime)
    | _, _ => none

/-- `Negation`: negate the statement (result statement carries the negation
connector) and the frequency.  The question branch of the source binds no
result (`assert "error"` is a no-op on a truthy string), so the following
access to `result` raises `UnboundLocalError`: embedded as `none`. -/
def Negation (j : Sentence) : Option Sentence :=
  let rs := mkStmt j.statement.subject j.statement.predicate
      j.statement.copula (some TermConnector.negation)
  match j with
  | .judgment _ v occ =>
      some (Sentence.judgment rs (F_Negation v.frequency v.confidence) occ)
  | .question _ _ => none

/-- `Conversion`: swap subject and predicate; a question input yields the
converted question. -/
def Conversion (k : ℚ) (j : Sentence) : Sentence :=
  let rs := mkStmt j.statement.predicate j.statement.subject
      j.statement.copula none
  match j with
  | .judgment _ v occ =>
      Sentence.judgment rs (F_Conversion k v.frequency v.confidence) occ
  | .question _ _ => Sentence.question rs none

/-- `Contraposition`: negate both sides and swap them; the result judgment
is built without an occurrence time (the source passes none).  A question
input yields the contraposed question. -/
def Contraposition (k : ℚ) (j : Sentence) : Sentence :=
  let negated_predicate := compound_mk_pure [j.statement.predicate]
      TermConnector.negation
  let negated_subject := compound_mk_pure [j.statement.subject]
      TermConnector.negation
  let rs := mkStmt negated_predicate negated_subject j.statement.copula none
  match j with
  | .judgment _ v _ =>
      Sentence.judgment rs (F_Contraposition k v.frequency v.confidence) none
  | .question _ _ => Sentence.question rs none

/-- Modelled from the spec: `Global.Global.TERM_IMAGE_PLACEHOLDER` is not
defined under src; the spec's image placeholder marker is the underscore
term. -/
def TERM_IMAGE_PLACEHOLDER : Term :=
  Term.atomic "_"

/-- The subterm list of a term (`term.subterms`); atomic and variable terms
have none and accessing the attribute raises. -/
def subtermsOf : Term → Option (List Term)
  | .compound _ subs => some subs
  | .statement _ _ subs => some subs
  | _ => none

/-- One image statement of `ExtensionalImage`: the `i1`-th subterm is
extracted, the image term is the predicate `R` followed by the remaining
subterms with the placeholder at position `i1`. -/
def extensional_image_statement (subs : List Term) (R : Term) (i1 : Nat) :
    Option Stmt :=
  match subs.get? i1 with
  | none => none
  | some subterm =>
      let image_subterms :=
        R :: (List.range subs.length).map
          (fun i2 => if i1 = i2 then TERM_IMAGE_PLACEHOLDER
                     else (subs.get? i2).getD TERM_IMAGE_PLACEHOLDER)
      let image_term := compound_mk_pure image_subterms
          TermConnector.extensionalImage
      some (mkStmt subterm image_term Copula.inheritance none)

/-- `ExtensionalImage`: for a premise `((*,S,...,P) --> R)`, one derived
sentence per subject subterm, with the premise's truth value and occurrence
time (questions derive questions).  A premise whose subject has no
subterms raises, embedded as `none`. -/
def ExtensionalImage (j : Sentence) : Option (List Sentence) :=
  match subtermsOf j.statement.subject with
  | none => none
  | some statement_subterms =>
      let R := j.statement.predicate
      some ((List.range statement_subterms.length).filterMap
        (fun i1 =>
          match extensional_image_statement statement_subterms R i1 with
          | none => none
          | some rs =>
              match j with
              | .judgment _ v occ =>
                  some (Sentence.judgment rs ⟨v.frequency, v.confidence⟩ occ)
              | .question _ _ => some (Sentence.question rs none)))

/-- One image statement of `IntensionalImage`: as in the source, the image
term is built with the extensional-image connector, and the statement is
`(image --> subterm)`. -/
def intensional_image_statement (subs : List Term) (R : Term) (i1 : Nat) :
    Option Stmt :=
  match subs.get? i1 with
  | none => none
  | some subterm =>
      let image_subterms :=
        R :: (List.range subs.length).map
          (fun i2 => if i1 = i2 then TERM_IMAGE_PLACEHOLDER
                     else (subs.get? i2).getD TERM_IMAGE_PLACEHOLDER)
      let image_term := compound_mk_pure image_subterms
          TermConnector.extensionalImage
      some (mkStmt image_term subterm Copula.inheritance none)

/-- `IntensionalImage`: for a premise `(R --> (*,S,P))`, one derived
sentence per predicate subterm. -/
def IntensionalImage (j : Sentence) : Option (List Sentence) :=
  match subtermsOf j.statement.predicate with
  | none => none
  | some statement_subterms =>
      let R := j.statement.subject
      some ((List.range statement_subterms.length).filterMap
        (fun i1 =>
          match intensional_image_statement statement_subterms R i1 with
          | none => none
          | some rs =>
              match j with
              | .judgment _ v occ =>
                  some (Sentence.judgment rs ⟨v.frequency, v.confidence⟩ occ)
              | .question _ _ => some (Sentence.question rs none)))

/-! ## Syllogistic rules (`src/NALInferenceRules.py`) -/

/-- `Deduction`: premise shapes `(M --> P)` and `(S --> M)` give
`(S --> P)` with the first premise's copula and, for judgments, the first
premise's occurrence time.  A judgment first premise paired with a question
second premise raises when reading the question's value. -/
def Deduction (j1 j2 : Sentence) : Option Sentence :=
  let rs := mkStmt j2.statement.subject j1.statement.predicate
      j1.statement.copula none
  match j1 with
  | .judgment _ v1 o1 =>
      match j2.valueOf with
      | none => none
      | some v2 =>
          some (Sentence.judgment rs
            (F_Deduction v1.frequency v1.confidence v2.frequency v2.confidence) o1)
  | .question _ _ => some (Sentence.question rs none)

/-- `Analogy`: orientation by the position of the shared middle term, as in
the source's four-way comparison; unrelated premises fail the final
assertion. -/
def Analogy (j1 j2 : Sentence) : Option Sentence :=
  let s1 := j1.statement
  let s2 := j2.statement
  let rs? :=
    if termEq s1.subject s2.predicate then
      some (mkStmt s2.subject s1.predicate s1.copula none)
    else if termEq s1.subject s2.subject then
      some (mkStmt s2.predicate s1.predicate s1.copula none)
    else if termEq s1.predicate s2.predicate then
      some (mkStmt s1.subject s2.subject s1.copula none)
    else if termEq s1.predicate s2.subject then
      some (mkStmt s1.subject s2.predicate s1.copula none)
    else none
  match rs? with
  | none => none
  | some rs =>
      match j1 with
      | .judgment _ v1 o1 =>
          match j2.valueOf with
          | none => none
          | some v2 =>
              some (Sentence.judgment rs
                (F_Analogy v1.frequency v1.confidence v2.frequency v2.confidence) o1)
      | .question _ _ => some (Sentence.question rs none)

/-- `Resemblance`: as `Analogy` but both premises symmetric; note the
source's last orientation builds the statement from the second premise's
terms. -/
def Resemblance (j1 j2 : Sentence) : Option Sentence :=
  let s1 := j1.statement
  let s2 := j2.statement
  let rs? :=
    if termEq s1.subject s2.predicate then
      some (mkStmt s2.subject s1.predicate s1.copula none)
    else if termEq s1.subject s2.subject then
      some (mkStmt s2.predicate s1.predicate s1.copula none)
    else if termEq s1.predicate s2.predicate then
      some (mkStmt s2.subject s1.subject s1.copula none)
    else if termEq s1.predicate s2.subject then
      some (mkStmt s2.predicate s2.subject s1.copula none)
    else none
  match rs? with
  | none => none
  | some rs =>
      match j1 with
      | .judgment _ v1 o1 =>
          match j2.valueOf with
          | none => none
          | some v2 =>
              some (Sentence.judgment rs
                (F_Resemblance v1.frequency v1.confidence v2.frequency v2.confidence) o1)
      | .question _ _ => some (Sentence.question rs none)

/-- `Abduction`: `(P --> M)` and `(S --> M)` give `(S --> P)`. -/
def Abduction (k : ℚ) (j1 j2 : Sentence) : Option Sentence :=
  let rs := mkStmt j2.statement.subject j1.statement.subject
      j1.statement.copula none
  match j1 with
  | .judgment _ v1 o1 =>
      match j2.valueOf with
      | none => none
      | some v2 =>
          some (Sentence.judgment rs
            (F_Abduction k v1.frequency v1.confidence v2.frequency v2.confidence) o1)
  | .question _ _ => some (Sentence.question rs none)

/-- `Induction`: `(M --> P)` and `(M --> S)` give `(S --> P)`. -/
def Induction (k : ℚ) (j1 j2 : Sentence) : Option Sentence :=
  let rs := mkStmt j2.statement.predicate j1.statement.predicate
      j1.statement.copula none
  match j1 with
  | .judgment _ v1 o1 =>
      match j2.valueOf with
      | none => none
      | some v2 =>
          some (Sentence.judgment rs
            (F_Induction k v1.frequency v1.confidence v2.frequency v2.confidence) o1)
  | .question _ _ => some (Sentence.question rs none)

/-- `Exemplification`: `(P --> M)` and `(M --> S)` give `(S --> P)`. -/
def Exemplification (k : ℚ) (j1 j2 : Sentence) : Option Sentence :=
  let rs := mkStmt j2.statement.predicate j1.statement.subject
      j1.statement.copula none
  match j1 with
  | .judgment _ v1 o1 =>
      match j2.valueOf with
      | none => none
      | some v2 =>
          some (Sentence.judgment rs
            (F_Exemplification k v1.frequency v1.confidence v2.frequency v2.confidence) o1)
  | .question _ _ => some (Sentence.question rs none)

/-- `Comparison`: premises sharing a subject or sharing a predicate give a
similarity statement; unrelated premises fail the assertion. -/
def Comparison (k : ℚ) (j1 j2 : Sentence) : Option Sentence :=
  let s1 := j1.statement
  let s2 := j2.statement
  let rs? :=
    if termEq s1.subject s2.subject then
      some (mkStmt s2.predicate s1.predicate Copula.similarity none)
    else if termEq s1.predicate s2.predicate then
      some (mkStmt s2.subject s1.subject Copula.similarity none)
    else none
  match rs? with
  | none => none
  | some rs =>
      match j1 with
      | .judgment _ v1 o1 =>
          match j2.valueOf with
          | none => none
          | some v2 =>
              some (Sentence.judgment rs
                (F_Comparison k v1.frequency v1.confidence v2.frequency v2.confidence) o1)
      | .question _ _ => some (Sentence.question rs none)

/-- `IntensionalDifference`: asserts shared predicates and builds
`(M --> (T1 - T2))` from the two predicates — with the
extensional-difference connector, as in the source. -/
def IntensionalDifference (j1 j2 : Sentence) : Option Sentence :=
  let s1 := j1.statement
  let s2 := j2.statement
  if ¬ termEq s1.predicate s2.predicate then none
  else
    let compound_term := compound_mk_pure [s1.predicate, s2.predicate]
        TermConnector.extensionalDifference
    let rs := mkStmt s1.subject compound_term Copula.inheritance none
    match j1 with
    | .judgment _ v1 o1 =>
        match j2.valueOf with
        | none => none
        | some v2 =>
            some (Sentence.judgment rs
              (F_Difference v1.frequency v1.confidence v2.frequency v2.confidence) o1)
    | .question _ _ => some (Sentence.question rs none)

/-- `ExtensionalDifference`: premises sharing a predicate give
`((T1 ~ T2) --> M)` over the subjects; premises sharing a subject give
`(M --> (T1 - T2))` over the predicates; in both cases the truth value is
`F_Difference`.  When neither side is shared the source leaves the result
statement unbound and raises. -/
def ExtensionalDifference (j1 j2 : Sentence) : Option Sentence :=
  let s1 := j1.statement
  let s2 := j2.statement
  let rs? :=
    if termEq s1.predicate s2.predicate then
      some (mkStmt (compound_mk_pure [s1.subject, s2.subject]
          TermConnector.intensionalDifference) s1.predicate
          Copula.inheritance none)
    else if termEq s1.subject s2.subject then
      some (mkStmt s1.subject (compound_mk_pure [s1.predicate, s2.predicate]
          TermConnector.extensionalDifference)
          Copula.inheritance none)
    else none
  match rs? with
  | none => none
  | some rs =>
      match j1 with
      | .judgment _ v1 o1 =>
          match j2.valueOf with
          | none => none
          | some v2 =>
              some (Sentence.judgment rs
                (F_Difference v1.frequency v1.confidence v2.frequency v2.confidence) o1)
      | .question _ _ => some (Sentence.question rs none)

/-- `Projection`: project a judgment to the given occurrence time; the
projected judgment carries the target time.  The current cycle number is a
parameter.  Questions bind no result (as in `Negation`), and an eternal
premise makes the source subtract from `None`: both are `none`. -/
def Projection (j : Sentence) (occurrence_time T_c : ℤ) : Option Sentence :=
  match j with
  | .judgment stmt v occ =>
      match occ with
      | none => none
      | some t_B =>
          match F_Projection v.frequency v.confidence t_B occurrence_time T_c with
          | none => none
          | some tv => some (Sentence.judgment stmt tv (some occurrence_time))
  | .question _ _ => none

/-! ## The inference dispatcher (`src/NARSInferenceEngine.py`) -/

/-- `do_inference_one_premise`: for a judgment, derive Negation always,
Conversion when the copula is asymmetric and the frequency is positive, and
Contraposition when the copula is the (plain) implication and the frequency
is below one.  Non-judgments derive nothing. -/
def do_inference_one_premise (k : ℚ) (j : Sentence) : List Sentence :=
  match j with
  | .question _ _ => []
  | .judgment stmt v _ =>
      (match Negation j with
       | some d => [d]
       | none => [])
      ++ (if ¬ stmt.copula.is_symmetric ∧ v.frequency > 0 then
            [Conversion k j]
          else [])
      ++ (if stmt.copula = Copula.implication ∧ v.frequency < 1 then
            [Contraposition k j]
          else [])

/-- `do_inference_two_premise`: the two-premise dispatcher.

* a premise whose statement term carries a top-level connector gives the
  empty derivation list;
* a tautology-producing pair, or a pair whose copulas differ
  (`j1_copula != j2_copula` — copula equality, not copula kind), gives the
  empty derivation list;
* syntactically identical statements are revised (questions give nothing);
* two asymmetric premises sharing subject-with-predicate run Deduction and
  swapped Exemplification; the shared-subject and shared-predicate branches
  call `NALInferenceRules.IntensionalIntersection`,
  `NALInferenceRules.ExtensionalIntersection` and
  `NALInferenceRules.Difference`, none of which exists in
  `src/NALInferenceRules.py`, so those branches raise `AttributeError`
  after printing their first derivations: embedded as `none`;
* the mixed-symmetry branches run Analogy (swapped when the first premise
  is the symmetric one) and two symmetric premises run Resemblance;
* every derivation is then extended with its one-premise derivations.

`none` models a raising execution; `some []` is the empty derivation
list. -/
def do_inference_two_premise (k : ℚ) (j1 j2 : Sentence) :
    Option (List Sentence) :=
  let s1 := j1.statement
  let s2 := j2.statement
  if s1.connector.isSome ∨ s2.connector.isSome then some []
  else
    let tautology :=
      (termEq s1.subject s2.predicate ∧ termEq s1.predicate s2.subject) ∨
      (termEq s1.subject s2.subject ∧ termEq s1.predicate s2.predicate ∧
        ¬ (s1.copula = Copula.inheritance ∧ s2.copula = Copula.inheritance))
    let different_copulas := s1.copula ≠ s2.copula
    if tautology ∨ different_copulas then some []
    else
      let is_question := j1.isQuestion ∨ j2.isQuestion
      let core : Option (List Sentence) :=
        if Stmt.fmt s1 = Stmt.fmt s2 then
          if is_question then some []
          else
            match Revision k j1 j2 with
            | some d => some [d]
            | none => none
        else if ¬ s1.copula.is_symmetric ∧ ¬ s2.copula.is_symmetric then
          if termEq s1.subject s2.predicate ∨ termEq s1.predicate s2.subject then
            let pair := if ¬ termEq s1.subject s2.predicate then (j2, j1)
                        else (j1, j2)
            match Deduction pair.1 pair.2, Exemplification k pair.2 pair.1 with
            | some d1, some d2 => some [d1, d2]
            | _, _ => none
          else if termEq s1.subject s2.subject then none
          else if termEq s1.predicate s2.predicate then none
          else none
        else if ¬ s1.copula.is_symmetric ∧ s2.copula.is_symmetric then
          match Analogy j1 j2 with
          | some d => some [d]
          | none => none
        else if s1.copula.is_symmetric ∧ ¬ s2.copula.is_symmetric then
          match Analogy j2 j1 with
          | some d => some [d]
          | none => none
        else
          match Resemblance j1 j2 with
          | some d => some [d]
          | none => none
      match core with
      | none => none
      | some derived =>
          some (derived ++ derived.flatMap (fun d => do_inference_one_premise k d))

/-! ## The two-premise occurrence-time helper
(`src/NALInferenceRules/HelperFunctions.py`, lines 86-103) -/

/-- The guard of the helper's occurrence-time block: the result statement
is a statement term with a first-order copula, or a non-statement compound
with a non-first-order connector.  (A statement term with no copula makes
the source test `is_first_order(None)`, which is false.) -/
def statement_needs_occurrence_time : Term → Bool
  | Term.statement _ (some cop) _ => cop.is_first_order
  | Term.statement _ none _ => false
  | Term.compound conn _ => ¬ conn.is_first_order
  | _ => false

/-- The occurrence time that `create_resultant_sentence_two_premise` gives
a two-premise conclusion: `None` unless the result statement needs one;
otherwise the larger of two event times, or the single event time, or
`None` when neither premise is an event. -/
def create_resultant_occurrence_time (result_statement : Term)
    (occ1 occ2 : Option ℤ) : Option ℤ :=
  if statement_needs_occurrence_time result_statement then
    match occ1, occ2 with
    | some t1, some t2 => some (if t1 > t2 then t1 else t2)
    | some t1, none => some t1
    | none, some t2 => some t2
    | none, none => none
  else none

/-- The spec's occurrence-time rule for a two-premise conclusion, written
from its words for comparison: inherit the single event time; take the
later of two event times; eternal when neither premise is an event. -/
def spec_occurrence_time_rule (occ1 occ2 : Option ℤ) : Option ℤ :=
  match occ1, occ2 with
  | some t1, some t2 => some (max t1 t2)
  | some t1, none => some t1
  | none, some t2 => some t2
  | none, none => none

/-! ## The Bag (`src/NARSDataStructures/Bag.py`) -/

/-- An item held by a container, reduced to the fields the Bag reads: its
key and its budget's priority (`NARSDataStructures/ItemContainers.py` is
not under src). -/
structure Item where
  key : String
  priority : ℚ
deriving DecidableEq, Repr

/-- Modelled from the spec: `Budget.get_priority_weight` — a non-negative
monotone function of the priority, here the identity (the specific map is a
tuning knob). -/
def priority_weight (p : ℚ) : ℚ := p

/-- Modelled from the spec: `Budget.set_priority` clamps to `[0,1]`. -/
def set_priority (p : ℚ) : ℚ :=
  max 0 (min 1 p)

/-- The Bag state: parallel key and weight vectors, the running weight sum,
the key-to-item lookup map (as an ordered association list, like a Python
dict), the auxiliary priority queue (`ordered_items`, a list of
item/priority entries standing for the Depq of `NARSDataStructures/Other.py`,
not under src), and the capacity. -/
structure Bag where
  item_keys : List String
  weights : List ℚ
  weights_sum : ℚ
  item_lookup_dict : List (String × Item)
  ordered_items : List (Item × ℚ)
  capacity : Nat
deriving DecidableEq, Repr

/-- Lookup in the item dictionary (`peek_using_key`; a miss returns
`None`). -/
def assocLookup (d : List (String × Item)) (key : String) : Option Item :=
  match d with
  | [] => none
  | kv :: rest => if kv.1 = key then some kv.2 else assocLookup rest key

/-- Modelled from the spec: `ItemContainer._put_into_lookup_dict` — a
Python dict store: overwrite in place when the key exists, else append. -/
def itemDictInsert (d : List (String × Item)) (item : Item) :
    List (String × Item) :=
  if (assocLookup d item.key).isSome then
    d.map (fun kv => if kv.1 = item.key then (item.key, item) else kv)
  else d ++ [(item.key, item)]

/-- Update the stored item at a key in place. -/
def assocUpdate (d : List (String × Item)) (key : String) (item2 : Item) :
    List (String × Item) :=
  d.map (fun kv => if kv.1 = key then (key, item2) else kv)

/-- Remove the entry (entries) of a key
(`ItemContainer._take_from_lookup_dict`). -/
def eraseKey (d : List (String × Item)) (key : String) :
    List (String × Item) :=
  d.filter (fun kv => ¬ kv.1 = key)

/-- Modelled from the spec: `Depq.extract_min` — remove and return an entry
of minimal priority (the earliest stored among ties). -/
def depq_extract_min :
    List (Item × ℚ) → Option ((Item × ℚ) × List (Item × ℚ))
  | [] => none
  | e :: rest =>
      match depq_extract_min rest with
      | none => some (e, [])
      | some (m, rest2) =>
          if e.2 ≤ m.2 then some (e, rest) else some (m, e :: rest2)

/-- `Bag.take_using_key`: assert the key is present (a miss raises), delete
every position of the key from the key and weight vectors (`np.delete` at
`np.where`), remove the dictionary entry, and subtract the item's current
priority weight from the sum.  The priority queue is not touched, exactly
as in the source. -/
def Bag.take_using_key (bag : Bag) (key : String) : Option (Item × Bag) :=
  match assocLookup bag.item_lookup_dict key with
  | none => none
  | some item =>
      let kept := (bag.item_keys.zip bag.weights).filter
          (fun p => ¬ p.1 = key)
      some (item,
        { item_keys := kept.map Prod.fst
          weights := kept.map Prod.snd
          weights_sum := bag.weights_sum - priority_weight item.priority
          item_lookup_dict := eraseKey bag.item_lookup_dict key
          ordered_items := bag.ordered_items
          capacity := bag.capacity })

/-- `Bag._take_min`: extract the minimum entry of the priority queue, then
take its item's key from the bag.  A stale queue entry whose key is no
longer stored makes `take_using_key` raise. -/
def Bag.take_min (bag : Bag) : Option (Item × Bag) :=
  match depq_extract_min bag.ordered_items with
  | none => none
  | some (entry, rest) =>
      Bag.take_using_key
        { bag with ordered_items := rest } entry.1.key

/-- `Bag.put`: store the item in the lookup dict, append its key and
priority weight, add the weight to the sum, insert the item with its raw
priority into the priority queue; then, when the size exceeds the capacity,
remove the minimum-priority element.  The removed element is bound to a
local (`purged_item`) that the source never returns: the function returns
the item that was just put. -/
def Bag.put (bag : Bag) (item : Item) : Option (Bag × Item) :=
  let b1 : Bag :=
    { item_keys := bag.item_keys ++ [item.key]
      weights := bag.weights ++ [priority_weight item.priority]
      weights_sum := bag.weights_sum + priority_weight item.priority
      item_lookup_dict := itemDictInsert bag.item_lookup_dict item
      ordered_items := bag.ordered_items ++ [(item, item.priority)]
      capacity := bag.capacity }
  if b1.item_keys.length > b1.capacity then
    (b1.take_min).map (fun pr => (pr.2, item))
  else some (b1, item)

/-- `Bag.change_priority`: look the item up (a miss raises on the following
attribute access), subtract its current priority weight from the sum, clamp
and store the new priority, write the new weight at every position of the
key (`np` fancy assignment at `np.where`), and add the new weight to the
sum.  The priority queue is not updated, exactly as in the source. -/
def Bag.change_priority (bag : Bag) (key : String) (new_priority : ℚ) :
    Option Bag :=
  match assocLookup bag.item_lookup_dict key with
  | none => none
  | some item =>
      let sum1 := bag.weights_sum - priority_weight item.priority
      let item2 : Item := ⟨item.key, set_priority new_priority⟩
      let nw := priority_weight item2.priority
      some
        { item_keys := bag.item_keys
          weights := (bag.item_keys.zip bag.weights).map
              (fun p => if p.1 = key then nw else p.2)
          weights_sum := sum1 + nw
          item_lookup_dict := assocUpdate bag.item_lookup_dict key item2
          ordered_items := bag.ordered_items
          capacity := bag.capacity }

/-- A Bag mutation: one of the three operations the invariant claim ranges
over. -/
inductive BagOp where
  | putOp (item : Item)
  | takeOp (key : String)
  | changeOp (key : String) (new_priority : ℚ)
deriving DecidableEq, Repr

/-- Run one operation; `none` is a raising execution. -/
def applyOp (bag : Bag) : BagOp → Option Bag
  | .putOp item => (bag.put item).map Prod.fst
  | .takeOp key => (bag.take_using_key key).map Prod.snd
  | .changeOp key p => bag.change_priority key p

/-- Run a sequence of operations, stopping at the first raising one. -/
def applyOps (bag : Bag) : List BagOp → Option Bag
  | [] => some bag
  | op :: ops =>
      match applyOp bag op with
      | none => none
      | some b2 => applyOps b2 ops

/-- A sequence of operations is valid when every `put` along the way uses a
key not currently stored (the spec makes this the caller's responsibility)
and no operation raises. -/
def validSeq (bag : Bag) : List BagOp → Bool
  | [] => true
  | op :: ops =>
      (match op with
       | .putOp item => decide (assocLookup bag.item_lookup_dict item.key = none)
       | _ => true)
      && (match applyOp bag op with
          | none => false
          | some b2 => validSeq b2 ops)

/-- The Bag representation invariant: the key vector and the weight vector
mirror the lookup map (in order), the weight at each position is the
priority weight of the stored item, the running sum is the vector sum,
stored items carry their own key, and keys are unique. -/
def Bag.WF (bag : Bag) : Prop :=
  bag.item_keys = bag.item_lookup_dict.map Prod.fst ∧
  bag.weights = bag.item_lookup_dict.map
      (fun kv => priority_weight kv.2.priority) ∧
  bag.weights_sum = bag.weights.sum ∧
  (∀ kv ∈ bag.item_lookup_dict, kv.2.key = kv.1) ∧
  (bag.item_lookup_dict.map Prod.fst).Nodup

/-! ## Concrete inputs used by counterexamples and witnesses -/

/-- Atomic middle term. -/
def tMx : Term := Term.atomic "M"

/-- Atomic predicate term. -/
def tPx : Term := Term.atomic "P"

/-- Atomic subject term. -/
def tSx : Term := Term.atomic "S"

/-- The statement `(M --> P)`. -/
def stmtMP : Stmt := mkStmt tMx tPx Copula.inheritance none

/-- The statement `(S --> M)`. -/
def stmtSM : Stmt := mkStmt tSx tMx Copula.inheritance none

/-- The statement `(S <-> M)` (stored canonically ordered). -/
def stmtSsimM : Stmt := mkStmt tSx tMx Copula.similarity none

/-- The judgment `((*,S,P) --> R). %1.0;0.9%`, an eligible premise for the
Extensional Image rule. -/
def jProductEx : Sentence :=
  Sentence.judgment
    (mkStmt (Term.compound TermConnector.product [tSx, tPx])
      (Term.atomic "R") Copula.inheritance none)
    ⟨1, 9/10⟩ none

/-! ## Claim C1 -/

/-- Claim C1: the Difference truth function.  The claim says the frequency
is `f1·(1−f2)`; the source computes `band(f1, not (f2))` with Python's
boolean `not`, so at `(f1,c1) = (1, 0.9)`, `(f2,c2) = (0.5, 0.9)` the code
returns frequency 0 (with confidence `c1·c2 = 0.81`) while the claimed
frequency is `1·(1−0.5) = 0.5 ≠ 0`; the `ExtensionalDifference` rule passes
the same wrong frequency into its conclusion. -/
theorem F_Difference_bug_eval :
    F_Difference 1 (9/10) (1/2) (9/10) = ⟨0, 81/100⟩ ∧
    (ExtensionalDifference
        (Sentence.judgment (mkStmt tMx (Term.atomic "T1") Copula.inheritance none)
          ⟨1, 9/10⟩ none)
        (Sentence.judgment (mkStmt tMx (Term.atomic "T2") Copula.inheritance none)
          ⟨1/2, 9/10⟩ none)).bind Sentence.valueOf = some ⟨0, 81/100⟩ ∧
    (1 : ℚ) * (1 - 1/2) ≠ 0 := by
  refine ⟨?_, ?_, by norm_num⟩
  · norm_num [F_Difference, band, pyNot]
  · norm_num [ExtensionalDifference, termEq, mkStmt, Term.fmt, fmtList,
      Sentence.statement, Sentence.valueOf, F_Difference, band, pyNot,
      Copula.is_symmetric, strLtB, compound_mk_pure, TermConnector.is_order_invariant]
    rw [if_neg (by decide : ¬ ("T1" : String) = "T2")]
    rfl

/-! ## Claim C9 -/

/-- Claim C9 counterexample: projecting a judgment to its own occurrence
time with the current cycle number equal to that time divides by zero
(`|t_B−T_c| + |t_T−T_c| = 0`), so the code raises instead of returning the
unchanged truth value; the claim quantifies over every current cycle
number. -/
theorem projection_zero_division_cx :
    Projection (Sentence.judgment stmtSM ⟨1/2, 9/10⟩ (some 5)) 5 5 = none ∧
    F_Projection (1/2) (9/10) 5 5 5 = none := by
  have h0 : F_Projection (1/2) (9/10) 5 5 5 = none := by
    simp only [F_Projection]
    rw [if_pos (by norm_num)]
  have hP : Projection (Sentence.judgment stmtSM ⟨1/2, 9/10⟩ (some 5)) 5 5 =
      (match F_Projection (1/2) (9/10) 5 5 5 with
       | none => none
       | some tv => some (Sentence.judgment stmtSM tv (some 5))) := rfl
  refine ⟨?_, h0⟩
  rw [hP, h0]

/-- Claim C9 (amended): for every current cycle number different from the
premise's occurrence time, projecting a judgment to its own occurrence time
returns the judgment unchanged (same frequency, same confidence, same
occurrence time). -/
theorem projection_identity_at_own_time :
    ∀ (stmt : Stmt) (f c : ℚ) (t_B T_c : ℤ), T_c ≠ t_B →
      Projection (Sentence.judgment stmt ⟨f, c⟩ (some t_B)) t_B T_c =
        some (Sentence.judgment stmt ⟨f, c⟩ (some t_B)) := by
  intro stmt f c t_B T_c h
  have hz : t_B ≠ T_c := fun he => h he.symm
  have hsub : (t_B : ℚ) - (T_c : ℚ) ≠ 0 := by
    rw [sub_ne_zero]
    exact_mod_cast hz
  have hden : |(t_B : ℚ) - (T_c : ℚ)| + |(t_B : ℚ) - (T_c : ℚ)| ≠ 0 := by
    have hpos : 0 < |(t_B : ℚ) - (T_c : ℚ)| := abs_pos.mpr hsub
    positivity
  have hF : F_Projection f c t_B t_B T_c = some ⟨f, c⟩ := by
    simp only [F_Projection]
    rw [if_neg hden]
    simp [sub_self, abs_zero, zero_div, sub_zero, one_mul]
  have hP : Projection (Sentence.judgment stmt ⟨f, c⟩ (some t_B)) t_B T_c =
      (match F_Projection f c t_B t_B T_c with
       | none => none
       | some tv => some (Sentence.judgment stmt tv (some t_B))) := rfl
  rw [hP, hF]

/-- Claim C9 witness: the amended identity at `t_B = 5`, `T_c = 7`. -/
theorem projection_identity_at_own_time_witness :
    Projection (Sentence.judgment stmtSM ⟨1/2, 9/10⟩ (some 5)) 5 7 =
      some (Sentence.judgment stmtSM ⟨1/2, 9/10⟩ (some 5)) :=
  projection_identity_at_own_time stmtSM (1/2) (9/10) 5 7 (by decide)

/-! ## Claim C10 -/

/-- Claim C10: `Negation` fails on every Question (its question branch
constructs no result, so the source raises), while `Conversion` and
`Contraposition` construct derived Questions for question inputs. -/
theorem negation_question_fails_conversion_succeeds :
    ∀ (stmt : Stmt) (occ : Option ℤ) (k : ℚ),
      Negation (Sentence.question stmt occ) = none ∧
      Conversion k (Sentence.question stmt occ) =
        Sentence.question (mkStmt stmt.predicate stmt.subject stmt.copula none)
          none ∧
      Contraposition k (Sentence.question stmt occ) =
        Sentence.question
          (mkStmt (compound_mk_pure [stmt.predicate] TermConnector.negation)
            (compound_mk_pure [stmt.subject] TermConnector.negation)
            stmt.copula none) none := by
  intro stmt occ k
  exact ⟨rfl, rfl, rfl⟩

/-! ## Claim C3 -/

/-- Claim C3 counterexample: with an eternal first premise and a second
premise that is an event at time 5, `Deduction` produces an eternal
conclusion (it always copies the first premise's occurrence time), while
the claim requires the conclusion to inherit time 5 from the only event
premise. -/
theorem deduction_occurrence_time_cx :
    (Deduction (Sentence.judgment stmtMP ⟨1, 9/10⟩ none)
        (Sentence.judgment stmtSM ⟨1, 9/10⟩ (some 5))).map
      Sentence.occurrenceTime = some none ∧
    some (none : Option ℤ) ≠ some (some (5 : ℤ)) := by
  refine ⟨?_, by decide⟩
  simp [Deduction, Sentence.valueOf, Sentence.occurrenceTime]

/-- Claim C3 (amended): the monolithic two-premise rules give a judgment
conclusion the first premise's occurrence time, whatever the second
premise's time is; the helper `create_resultant_sentence_two_premise`
applies the claimed rule (inherit the single event time, take the later of
two, else eternal) exactly when the result statement needs an occurrence
time (first-order statement, or compound with a higher-order connector),
and otherwise makes the conclusion eternal. -/
theorem two_premise_occurrence_time_characterization :
    (∀ (s1 s2 : Stmt) (v1 v2 : TruthValue) (o1 o2 : Option ℤ),
        (Deduction (Sentence.judgment s1 v1 o1) (Sentence.judgment s2 v2 o2)).map
          Sentence.occurrenceTime = some o1) ∧
    (∀ (rs : Term) (o1 o2 : Option ℤ),
        create_resultant_occurrence_time rs o1 o2 =
          if statement_needs_occurrence_time rs then
            spec_occurrence_time_rule o1 o2
          else none) := by
  constructor
  · intro s1 s2 v1 v2 o1 o2
    rfl
  · intro rs o1 o2
    by_cases hn : statement_needs_occurrence_time rs
    · cases o1 with
      | none =>
          cases o2 <;>
            simp [create_resultant_occurrence_time, spec_occurrence_time_rule, hn]
      | some t1 =>
          cases o2 with
          | none =>
              simp [create_resultant_occurrence_time, spec_occurrence_time_rule, hn]
          | some t2 =>
              simp only [create_resultant_occurrence_time,
                spec_occurrence_time_rule, hn, if_true]
              rw [sup_eq_max, max_def]
              split_ifs <;> exact congrArg some (by omega)
    · simp [create_resultant_occurrence_time, spec_occurrence_time_rule, hn]

/-! ## Claim C7 -/

/-- The statements of the two sentences that the one-premise step actually
derives from `jProductEx` (Negation and Conversion). -/
def stmtNegEx : Stmt :=
  ⟨Term.compound TermConnector.product [tSx, tPx], Term.atomic "R",
    Copula.inheritance, some TermConnector.negation⟩

/-- The Conversion statement derived from `jProductEx`. -/
def stmtConvEx : Stmt :=
  ⟨Term.atomic "R", Term.compound TermConnector.product [tSx, tPx],
    Copula.inheritance, none⟩

/-- The first Extensional Image statement of `jProductEx`:
`(S --> (/,R,_,P))`. -/
def stmtImg1Ex : Stmt :=
  ⟨tSx, Term.compound TermConnector.extensionalImage
      [Term.atomic "R", Term.atomic "_", tPx],
    Copula.inheritance, none⟩

/-- The second Extensional Image statement of `jProductEx`:
`(P --> (/,R,S,_))`. -/
def stmtImg2Ex : Stmt :=
  ⟨tPx, Term.compound TermConnector.extensionalImage
      [Term.atomic "R", tSx, Term.atomic "_"],
    Copula.inheritance, none⟩

/-- Claim C7 counterexample: on the image-eligible judgment
`((*,S,P) --> R). %1.0;0.9%` the one-premise inference step derives exactly
the Negation and Conversion statements; the Extensional Image rule would
derive two image statements, and neither of them is among the step's
derivations — so the one-premise step does not produce Image
derivations. -/
theorem one_premise_no_image_cx :
    (do_inference_one_premise 1 jProductEx).map Sentence.statement =
      [stmtNegEx, stmtConvEx] ∧
    (ExtensionalImage jProductEx).map (fun l => l.map Sentence.statement) =
      some [stmtImg1Ex, stmtImg2Ex] ∧
    stmtImg1Ex ∉ [stmtNegEx, stmtConvEx] ∧
    stmtImg2Ex ∉ [stmtNegEx, stmtConvEx] := by
  refine ⟨?_, ?_, by decide, by decide⟩
  · norm_num [do_inference_one_premise, jProductEx, Negation, Conversion,
      Sentence.statement, mkStmt, Copula.is_symmetric, strLtB, Term.fmt,
      fmtList, joinComma, stmtNegEx, stmtConvEx, TermConnector.value,
      Copula.value]
  · norm_num [ExtensionalImage, jProductEx, Sentence.statement, subtermsOf,
      extensional_image_statement, mkStmt, Copula.is_symmetric,
      compound_mk_pure, TermConnector.is_order_invariant, List.range,
      List.range.loop, stmtImg1Ex, stmtImg2Ex, TERM_IMAGE_PLACEHOLDER,
      List.filterMap_cons, List.filterMap_nil, List.get?]

/-- Membership in a conditional singleton list. -/
theorem mem_ite_singleton {α : Type} {c : Prop} [Decidable c] (x s : α) :
    s ∈ (if c then [x] else []) ↔ c ∧ s = x := by
  by_cases h : c <;> simp [h]

/-- Claim C7 (amended): a sentence is derived by the one-premise step from
a judgment exactly when it is the Negation result, or the Conversion result
under an asymmetric copula and positive frequency, or the Contraposition
result under the implication copula and frequency below one; in particular
no Image derivations are produced. -/
theorem one_premise_rules_characterization :
    ∀ (stmt : Stmt) (v : TruthValue) (occ : Option ℤ) (k : ℚ) (s : Sentence),
      s ∈ do_inference_one_premise k (Sentence.judgment stmt v occ) ↔
        (Negation (Sentence.judgment stmt v occ) = some s ∨
         (¬ stmt.copula.is_symmetric ∧ v.frequency > 0 ∧
            s = Conversion k (Sentence.judgment stmt v occ)) ∨
         (stmt.copula = Copula.implication ∧ v.frequency < 1 ∧
            s = Contraposition k (Sentence.judgment stmt v occ))) := by
  intro stmt v occ k s
  have hneg : Negation (Sentence.judgment stmt v occ) =
      some (Sentence.judgment
        (mkStmt stmt.subject stmt.predicate stmt.copula
          (some TermConnector.negation))
        (F_Negation v.frequency v.confidence) occ) := rfl
  simp only [do_inference_one_premise, hneg, List.mem_append,
    List.mem_singleton, mem_ite_singleton, Option.some.injEq, eq_comm,
    and_assoc, or_assoc]

/-! ## Claim C2 -/

/-- Claim C2: whenever exactly one premise's copula is symmetric and the
other's is asymmetric, the two copulas are unequal, so the dispatcher's
`different_copulas` early return fires and the derivation list is empty —
the Analogy branches are unreachable, contradicting the claimed Analogy
derivation. -/
theorem dispatcher_mixed_symmetry_empty :
    ∀ (k : ℚ) (j1 j2 : Sentence),
      j1.statement.copula.is_symmetric ≠ j2.statement.copula.is_symmetric →
      do_inference_two_premise k j1 j2 = some [] := by
  intro k j1 j2 h
  have hne : j1.statement.copula ≠ j2.statement.copula := fun he => h (by rw [he])
  unfold do_inference_two_premise
  by_cases hc : j1.statement.connector.isSome ∨ j2.statement.connector.isSome
  · rw [if_pos hc]
  · rw [if_neg hc, if_pos (Or.inr hne)]

/-- Claim C2 witness: the judgments `(M --> P). %1.0;0.9%` and
`(S <-> M). %1.0;0.9%` share the middle term `M`, are not identical, would
not produce a tautology, and have one asymmetric and one symmetric copula;
the dispatcher nevertheless returns the empty derivation list. -/
theorem dispatcher_mixed_symmetry_empty_witness :
    do_inference_two_premise 1
      (Sentence.judgment stmtMP ⟨1, 9/10⟩ none)
      (Sentence.judgment stmtSsimM ⟨1, 9/10⟩ none) = some [] :=
  dispatcher_mixed_symmetry_empty 1
    (Sentence.judgment stmtMP ⟨1, 9/10⟩ none)
    (Sentence.judgment stmtSsimM ⟨1, 9/10⟩ none) (by decide)

/-! ## Claim C8 -/

/-- The revision truth function is symmetric in its two evidence pairs. -/
theorem F_Revision_comm (k a b c d : ℚ) :
    F_Revision k a b c d = F_Revision k c d a b := by
  simp only [F_Revision]
  rw [add_comm a c, add_comm b d]

/-- Claim C8: for judgments with the same statement (and confidences below
one, as the claim assumes), the truth value of `Revision(j1, j2)` equals
the truth value of `Revision(j2, j1)`. -/
theorem revision_truth_commutative :
    ∀ (k : ℚ) (stmt : Stmt) (v1 v2 : TruthValue) (o1 o2 : Option ℤ),
      v1.confidence < 1 → v2.confidence < 1 →
      (Revision k (Sentence.judgment stmt v1 o1)
          (Sentence.judgment stmt v2 o2)).bind Sentence.valueOf =
        (Revision k (Sentence.judgment stmt v2 o2)
          (Sentence.judgment stmt v1 o1)).bind Sentence.valueOf := by
  intro k stmt v1 v2 o1 o2 h1 h2
  have hR : ∀ (va vb : TruthValue) (oa ob : Option ℤ),
      Revision k (Sentence.judgment stmt va oa) (Sentence.judgment stmt vb ob) =
        some (Sentence.judgment
          (mkStmt stmt.subject stmt.predicate stmt.copula none)
          (F_Revision k
            (get_evidence_fromfreqconf k va.frequency va.confidence).1
            (get_evidence_fromfreqconf k va.frequency va.confidence).2.2
            (get_evidence_fromfreqconf k vb.frequency vb.confidence).1
            (get_evidence_fromfreqconf k vb.frequency vb.confidence).2.2)
          oa) := by
    intro va vb oa ob
    unfold Revision
    rw [if_neg (fun hn => hn rfl)]
    rfl
  rw [hR v1 v2 o1 o2, hR v2 v1 o2 o1]
  simp only [Option.some_bind, Sentence.valueOf]
  exact congrArg some (F_Revision_comm k _ _ _ _)

/-- Claim C8 witness: the commutativity at `(A --> B)` with truth values
`%1.0;0.9%` and `%0.0;0.9%` and `k = 1`. -/
theorem revision_truth_commutative_witness :
    (Revision 1 (Sentence.judgment stmtMP ⟨1, 9/10⟩ none)
        (Sentence.judgment stmtMP ⟨0, 9/10⟩ none)).bind Sentence.valueOf =
      (Revision 1 (Sentence.judgment stmtMP ⟨0, 9/10⟩ none)
        (Sentence.judgment stmtMP ⟨1, 9/10⟩ none)).bind Sentence.valueOf :=
  revision_truth_commutative 1 stmtMP ⟨1, 9/10⟩ ⟨0, 9/10⟩ none none
    (by norm_num) (by norm_num)

/-! ## Claim C6 -/

/-- Storing a key in the intern table makes it retrievable. -/
theorem dictLookup_insert (d : List (String × (Nat × Term))) (s : String)
    (v : Nat × Term) : dictLookup (dictInsertTerm d s v) s = some v := by
  induction d with
  | nil => simp [dictInsertTerm, dictLookup]
  | cons kv rest ih =>
      by_cases hk : kv.1 = s
      · simp [dictInsertTerm, dictLookup, hk]
      · simp [dictInsertTerm, dictLookup, hk, ih]

/-- A successful `Term.from_string` leaves the input string in the intern
table, mapped to the returned object. -/
theorem term_from_string_interns (n : Nat) (st : InternState) (s : String)
    (p : Nat × Term) (st2 : InternState)
    (h : term_from_string n st s = some (p, st2)) :
    dictLookup st2.dict s = some p := by
  cases n with
  | zero => simp [term_from_string] at h
  | succ m =>
      rw [term_from_string] at h
      cases hl : dictLookup st.dict s with
      | some q =>
          rw [hl] at h
          simp only [Option.some.injEq, Prod.mk.injEq] at h
          rw [h.2, h.1] at hl
          exact hl
      | none =>
          rw [hl] at h
          cases hb : build_term m st s with
          | none => rw [hb] at h; simp at h
          | some ts =>
              rw [hb] at h
              simp only [Option.some.injEq, Prod.mk.injEq] at h
              rw [← h.2, ← h.1]
              exact dictLookup_insert ts.2.dict s (ts.2.next, ts.1)

/-- Claim C6 (amended): the intern table is keyed by the input string, so a
second construction from the same string (with any nonzero recursion
budget) returns the identical interned object and leaves the table
unchanged. -/
theorem intern_same_string_identity :
    ∀ (n m : Nat) (st : InternState) (s : String) (p : Nat × Term)
      (st2 : InternState),
      term_from_string n st s = some (p, st2) →
      term_from_string (m + 1) st2 s = some (p, st2) := by
  intro n m st s p st2 h
  have hl := term_from_string_interns n st s p st2 h
  rw [term_from_string, hl]

/-- The canonical form of both `"(&,b,a)"` and `"(&,a,b)"`: the
extensional intersection with its children in canonical order. -/
def tABx : Term :=
  Term.compound TermConnector.extensionalIntersection
    [Term.atomic "a", Term.atomic "b"]

/-- The intern table after parsing `"(&,b,a)"` from the empty state: the
two atoms and the compound, keyed by the strings they were built from. -/
def st1x : InternState :=
  ⟨[("b", (0, Term.atomic "b")), ("a", (1, Term.atomic "a")),
    ("(&,b,a)", (2, tABx))], 3⟩

/-- Claim C6 counterexample: the two well-formed strings `"(&,b,a)"` and
`"(&,a,b)"` parse to the same canonical term `(&,a,b)`, yet constructing
them in sequence returns two distinct objects (allocation numbers 2 and 3):
the intern table is keyed by the input string, not by the canonical string,
so structurally equal terms need not share identity. -/
theorem intern_by_input_string_cx :
    (term_from_string 20 ⟨[], 0⟩ "(&,b,a)").map (fun p => p.1) =
      some (2, tABx) ∧
    ((term_from_string 20 ⟨[], 0⟩ "(&,b,a)").bind
        (fun p => term_from_string 20 p.2 "(&,a,b)")).map (fun p => p.1) =
      some (3, tABx) ∧
    (2 : Nat) ≠ 3 ∧ Term.fmt tABx = "(&,a,b)" := by
  refine ⟨rfl, rfl, by decide, rfl⟩

/-- Claim C6 witness: re-parsing `"(&,b,a)"` in the state produced by its
first parse returns the same allocation number 2, the same term, and the
unchanged table. -/
theorem intern_same_string_identity_witness :
    term_from_string (0 + 1) st1x "(&,b,a)" = some ((2, tABx), st1x) :=
  intern_same_string_identity 20 0 ⟨[], 0⟩ "(&,b,a)" (2, tABx) st1x rfl

/-! ## Bag invariant lemmas -/

/-- The weight stored for a dictionary entry. -/
def wfun (kv : String × Item) : ℚ :=
  priority_weight kv.2.priority

/-- A failed lookup means the key is not among the stored keys. -/
theorem lookup_none_not_mem (d : List (String × Item)) (key : String)
    (h : assocLookup d key = none) : key ∉ d.map Prod.fst := by
  induction d with
  | nil => simp
  | cons kv rest ih =>
      by_cases hk : kv.1 = key
      · simp [assocLookup, hk] at h
      · simp only [assocLookup, if_neg hk] at h
        simp [Ne.symm hk, ih h]

/-- A successful lookup returns a stored entry. -/
theorem lookup_mem (d : List (String × Item)) (key : String) (it : Item)
    (h : assocLookup d key = some it) : (key, it) ∈ d := by
  induction d with
  | nil => simp [assocLookup] at h
  | cons kv rest ih =>
      by_cases hk : kv.1 = key
      · simp only [assocLookup, if_pos hk, Option.some.injEq] at h
        exact List.mem_cons.mpr (Or.inl (by rw [← hk, ← h]))
      · simp only [assocLookup, if_neg hk] at h
        exact List.mem_cons.mpr (Or.inr (ih h))

/-- Under unique keys, every stored entry is what lookup finds. -/
theorem lookup_of_mem_nodup (d : List (String × Item)) (kv : String × Item)
    (hnd : (d.map Prod.fst).Nodup) (h : kv ∈ d) :
    assocLookup d kv.1 = some kv.2 := by
  induction d with
  | nil => simp at h
  | cons e rest ih =>
      simp only [List.map_cons, List.nodup_cons] at hnd
      rcases List.mem_cons.mp h with he | hr
      · rw [he]
        simp [assocLookup]
      · have hne : e.1 ≠ kv.1 := by
          intro heq
          exact hnd.1 (heq ▸ List.mem_map_of_mem Prod.fst hr)
        simp only [assocLookup, if_neg hne]
        exact ih hnd.2 hr

/-- Removing an absent key changes nothing. -/
theorem filter_of_not_mem (d : List (String × Item)) (key : String)
    (h : key ∉ d.map Prod.fst) :
    d.filter (fun kv => ¬ kv.1 = key) = d := by
  induction d with
  | nil => rfl
  | cons kv rest ih =>
      simp only [List.map_cons, List.mem_cons, not_or] at h
      rw [List.filter_cons]
      rw [if_pos (by simpa using Ne.symm h.1)]
      rw [ih h.2]

/-- Removing a present key under unique keys subtracts exactly its weight
from the mapped sum. -/
theorem erase_sum (d : List (String × Item)) (key : String) (it : Item)
    (hnd : (d.map Prod.fst).Nodup) (h : assocLookup d key = some it) :
    ((d.filter (fun kv => ¬ kv.1 = key)).map wfun).sum =
      (d.map wfun).sum - wfun (key, it) := by
  induction d with
  | nil => simp [assocLookup] at h
  | cons kv rest ih =>
      simp only [List.map_cons, List.nodup_cons] at hnd
      by_cases hk : kv.1 = key
      · simp only [assocLookup, if_pos hk, Option.some.injEq] at h
        rw [List.filter_cons, if_neg (by simpa using hk)]
        rw [filter_of_not_mem rest key (hk ▸ hnd.1)]
        have hw : wfun (key, it) = wfun kv := by
          simp [wfun, ← h, ← hk]
        rw [hw]
        simp [List.sum_cons]
      · simp only [assocLookup, if_neg hk] at h
        rw [List.filter_cons, if_pos (by simpa using Ne.intro hk)]
        simp only [List.map_cons, List.sum_cons, ih hnd.2 h]
        ring

/-- Removing a present key under unique keys removes exactly one entry. -/
theorem erase_length (d : List (String × Item)) (key : String) (it : Item)
    (hnd : (d.map Prod.fst).Nodup) (h : assocLookup d key = some it) :
    (d.filter (fun kv => ¬ kv.1 = key)).length + 1 = d.length := by
  induction d with
  | nil => simp [assocLookup] at h
  | cons kv rest ih =>
      simp only [List.map_cons, List.nodup_cons] at hnd
      by_cases hk : kv.1 = key
      · rw [List.filter_cons, if_neg (by simpa using hk)]
        rw [filter_of_not_mem rest key (hk ▸ hnd.1)]
        simp
      · simp only [assocLookup, if_neg hk] at h
        rw [List.filter_cons, if_pos (by simpa using Ne.intro hk)]
        simp only [List.length_cons]
        rw [← ih hnd.2 h]

/-- The zipped key/weight vector of a well-formed bag is the dictionary
seen through keys and weights. -/
theorem zip_keys_weights (d : List (String × Item)) :
    (d.map Prod.fst).zip (d.map wfun) =
      d.map (fun kv => (kv.1, wfun kv)) := by
  induction d with
  | nil => rfl
  | cons kv rest ih => simp [ih]

/-- Filtering the zipped vector by key is filtering the dictionary. -/
theorem kept_eq (d : List (String × Item)) (key : String) :
    ((d.map Prod.fst).zip (d.map wfun)).filter (fun p => ¬ p.1 = key) =
      (d.filter (fun kv => ¬ kv.1 = key)).map (fun kv => (kv.1, wfun kv)) := by
  rw [zip_keys_weights]
  exact List.filter_map (fun kv => (kv.1, wfun kv)) d

/-- `take_using_key` preserves the Bag invariant. -/
theorem take_using_key_WF (bag : Bag) (key : String) (it : Item) (b2 : Bag)
    (hwf : bag.WF) (h : bag.take_using_key key = some (it, b2)) : b2.WF := by
  obtain ⟨hk, hw, hs, hcons, hnd⟩ := hwf
  unfold Bag.take_using_key at h
  cases hl : assocLookup bag.item_lookup_dict key with
  | none => rw [hl] at h; exact absurd h (by simp)
  | some item =>
      rw [hl] at h
      simp only [Option.some.injEq, Prod.mk.injEq] at h
      obtain ⟨hit, hb2⟩ := h
      subst hit
      subst hb2
      have hz : bag.item_keys.zip bag.weights =
          bag.item_lookup_dict.map (fun kv => (kv.1, wfun kv)) := by
        rw [hk, hw]
        exact zip_keys_weights bag.item_lookup_dict
      have hkept : (bag.item_keys.zip bag.weights).filter (fun p => ¬ p.1 = key) =
          (bag.item_lookup_dict.filter (fun kv => ¬ kv.1 = key)).map
            (fun kv => (kv.1, wfun kv)) := by
        rw [hk, hw]
        exact kept_eq bag.item_lookup_dict key
      refine ⟨?_, ?_, ?_, ?_, ?_⟩ <;> dsimp only
      · rw [hkept, List.map_map]
        exact List.map_congr_left (fun kv _ => rfl)
      · rw [hkept, List.map_map]
        exact List.map_congr_left (fun kv _ => rfl)
      · rw [hkept, List.map_map]
        have hmc : ((bag.item_lookup_dict.filter (fun kv => ¬ kv.1 = key)).map
            (Prod.snd ∘ fun kv => (kv.1, wfun kv))) =
            ((bag.item_lookup_dict.filter (fun kv => ¬ kv.1 = key)).map wfun) :=
          List.map_congr_left (fun kv _ => rfl)
        rw [hmc, erase_sum bag.item_lookup_dict key item hnd hl]
        have hws : bag.weights = bag.item_lookup_dict.map wfun := hw
        rw [← hws, ← hs]
        rfl
      · intro kv hkv
        exact hcons kv (List.mem_of_mem_filter hkv)
      · simp only [eraseKey]
        exact ((List.filter_sublist _).map Prod.fst).nodup hnd

/-- Updating a stored item in place leaves the key list unchanged. -/
theorem assocUpdate_keys (d : List (String × Item)) (key : String) (it2 : Item) :
    (assocUpdate d key it2).map Prod.fst = d.map Prod.fst := by
  unfold assocUpdate
  rw [List.map_map]
  exact List.map_congr_left (fun kv _ => by by_cases hkk : kv.1 = key <;> simp [hkk])

/-- Writing a new weight at one present key under unique keys changes the
mapped sum by the weight difference. -/
theorem update_sum (d : List (String × Item)) (key : String) (item : Item)
    (nw : ℚ) (hnd : (d.map Prod.fst).Nodup)
    (h : assocLookup d key = some item) :
    (d.map (fun kv => if kv.1 = key then nw else wfun kv)).sum =
      (d.map wfun).sum - wfun (key, item) + nw := by
  induction d with
  | nil => simp [assocLookup] at h
  | cons kv rest ih =>
      simp only [List.map_cons, List.nodup_cons] at hnd
      by_cases hk : kv.1 = key
      · simp only [assocLookup, if_pos hk, Option.some.injEq] at h
        have hrest : rest.map (fun kv => if kv.1 = key then nw else wfun kv) =
            rest.map wfun := by
          refine List.map_congr_left (fun kv2 hkv2 => ?_)
          have hne : kv2.1 ≠ key := by
            intro heq
            refine hnd.1 ?_
            rw [hk, ← heq]
            exact List.mem_map_of_mem Prod.fst hkv2
          rw [if_neg hne]
        simp only [List.map_cons, List.sum_cons, if_pos hk, hrest]
        have hwv : wfun (key, item) = wfun kv := by simp [wfun, ← h, ← hk]
        rw [hwv]
        ring
      · simp only [assocLookup, if_neg hk] at h
        simp only [List.map_cons, List.sum_cons, if_neg hk, ih hnd.2 h]
        ring

/-- `change_priority` preserves the Bag invariant. -/
theorem change_priority_WF (bag : Bag) (key : String) (p : ℚ) (b2 : Bag)
    (hwf : bag.WF) (h : bag.change_priority key p = some b2) : b2.WF := by
  obtain ⟨hk, hw, hs, hcons, hnd⟩ := hwf
  unfold Bag.change_priority at h
  cases hl : assocLookup bag.item_lookup_dict key with
  | none => rw [hl] at h; exact absurd h (by simp)
  | some item =>
      rw [hl] at h
      simp only [Option.some.injEq] at h
      subst h
      have hkey : item.key = key := hcons (key, item) (lookup_mem _ _ _ hl)
      have hz : bag.item_keys.zip bag.weights =
          bag.item_lookup_dict.map (fun kv => (kv.1, wfun kv)) := by
        rw [hk, hw]
        exact zip_keys_weights bag.item_lookup_dict
      refine ⟨?_, ?_, ?_, ?_, ?_⟩ <;> dsimp only
      · rw [assocUpdate_keys]
        exact hk
      · rw [hz, List.map_map]
        unfold assocUpdate
        rw [List.map_map]
        refine List.map_congr_left (fun kv _ => ?_)
        by_cases hkk : kv.1 = key <;> simp [hkk, wfun]
      · rw [hz, List.map_map]
        have hm : (bag.item_lookup_dict.map
            ((fun q => if q.1 = key then
                priority_weight (set_priority p) else q.2) ∘
              (fun kv => (kv.1, wfun kv)))) =
            bag.item_lookup_dict.map
              (fun kv => if kv.1 = key then
                priority_weight (set_priority p) else wfun kv) :=
          List.map_congr_left (fun kv _ => rfl)
        rw [hm, update_sum bag.item_lookup_dict key item _ hnd hl]
        have hws : bag.weights = bag.item_lookup_dict.map wfun := hw
        rw [← hws, ← hs]
        rfl
      · intro kv hkv
        unfold assocUpdate at hkv
        obtain ⟨kv0, hkv0, hupd⟩ := List.mem_map.mp hkv
        by_cases hkk : kv0.1 = key
        · rw [if_pos hkk] at hupd
          rw [← hupd]
          simpa using hkey
        · rw [if_neg hkk] at hupd
          rw [← hupd]
          exact hcons kv0 hkv0
      · rw [assocUpdate_keys]
        exact hnd

/-- Inserting a fresh key appends the entry to the dictionary. -/
theorem itemDictInsert_fresh (d : List (String × Item)) (item : Item)
    (hfresh : assocLookup d item.key = none) :
    itemDictInsert d item = d ++ [(item.key, item)] := by
  unfold itemDictInsert
  rw [hfresh]
  rfl

/-- The raw insertion phase of `put` (before any eviction) preserves the
Bag invariant when the key is fresh. -/
theorem put_raw_WF (bag : Bag) (item : Item)
    (hwf : bag.WF) (hfresh : assocLookup bag.item_lookup_dict item.key = none) :
    Bag.WF
      { item_keys := bag.item_keys ++ [item.key]
        weights := bag.weights ++ [priority_weight item.priority]
        weights_sum := bag.weights_sum + priority_weight item.priority
        item_lookup_dict := itemDictInsert bag.item_lookup_dict item
        ordered_items := bag.ordered_items ++ [(item, item.priority)]
        capacity := bag.capacity } := by
  obtain ⟨hk, hw, hs, hcons, hnd⟩ := hwf
  have hins := itemDictInsert_fresh bag.item_lookup_dict item hfresh
  have hnotmem := lookup_none_not_mem bag.item_lookup_dict item.key hfresh
  refine ⟨?_, ?_, ?_, ?_, ?_⟩ <;> dsimp only
  · rw [hins, List.map_append, hk]
    rfl
  · rw [hins, List.map_append, hw]
    rfl
  · rw [hs, List.sum_append]
    simp
  · intro kv hkv
    rw [hins] at hkv
    rcases List.mem_append.mp hkv with hmem | hmem
    · exact hcons kv hmem
    · simp only [List.mem_singleton] at hmem
      rw [hmem]
  · rw [hins, List.map_append]
    simp only [List.map_cons, List.map_nil]
    rw [List.nodup_append]
    exact ⟨hnd, List.nodup_singleton _, by simpa using hnotmem⟩

/-- `_take_min` preserves the Bag invariant. -/
theorem take_min_WF (bag : Bag) (it : Item) (b2 : Bag) (hwf : bag.WF)
    (h : bag.take_min = some (it, b2)) : b2.WF := by
  unfold Bag.take_min at h
  cases he : depq_extract_min bag.ordered_items with
  | none => rw [he] at h; exact absurd h (by simp)
  | some er =>
      obtain ⟨entry, rest⟩ := er
      rw [he] at h
      exact take_using_key_WF _ entry.1.key it b2 (by exact hwf) h

/-- `put` preserves the Bag invariant when the key is fresh (whether or not
the capacity eviction fires). -/
theorem put_WF (bag : Bag) (item : Item) (b2 : Bag) (ret : Item)
    (hwf : bag.WF) (hfresh : assocLookup bag.item_lookup_dict item.key = none)
    (h : bag.put item = some (b2, ret)) : b2.WF := by
  have hb1 := put_raw_WF bag item hwf hfresh
  simp only [Bag.put] at h
  split at h
  · rw [Option.map_eq_some'] at h
    obtain ⟨pr, hpr, heq⟩ := h
    have hb2 : pr.2 = b2 := congrArg Prod.fst heq
    rw [← hb2]
    refine take_min_WF _ pr.1 pr.2 hb1 ?_
    rw [Prod.mk.eta]
    exact hpr
  · simp only [Option.some.injEq, Prod.mk.injEq] at h
    rw [← h.1]
    exact hb1

/-- One valid operation preserves the Bag invariant. -/
theorem applyOp_WF (bag b2 : Bag) (op : BagOp) (hwf : bag.WF)
    (hput : ∀ item, op = BagOp.putOp item →
      assocLookup bag.item_lookup_dict item.key = none)
    (h : applyOp bag op = some b2) : b2.WF := by
  cases op with
  | putOp item =>
      simp only [applyOp, Option.map_eq_some'] at h
      obtain ⟨pr, hpr, heq⟩ := h
      rw [← heq]
      refine put_WF bag item pr.1 pr.2 hwf (hput item rfl) ?_
      rw [Prod.mk.eta]
      exact hpr
  | takeOp key =>
      simp only [applyOp, Option.map_eq_some'] at h
      obtain ⟨pr, hpr, heq⟩ := h
      rw [← heq]
      refine take_using_key_WF bag key pr.1 pr.2 hwf ?_
      rw [Prod.mk.eta]
      exact hpr
  | changeOp key p =>
      exact change_priority_WF bag key p b2 hwf h

/-- A valid operation sequence preserves the Bag invariant. -/
theorem applyOps_WF :
    ∀ (ops : List BagOp) (bag b2 : Bag), bag.WF → validSeq bag ops = true →
      applyOps bag ops = some b2 → b2.WF := by
  intro ops
  induction ops with
  | nil =>
      intro bag b2 hwf _ h
      simp only [applyOps, Option.some.injEq] at h
      rw [← h]
      exact hwf
  | cons op rest ih =>
      intro bag b2 hwf hv h
      simp only [applyOps] at h
      cases ha : applyOp bag op with
      | none => rw [ha] at h; exact absurd h (by simp)
      | some b3 =>
          rw [ha] at h
          simp only [validSeq, ha, Bool.and_eq_true] at hv
          have hb3 : b3.WF := by
            refine applyOp_WF bag b3 op hwf ?_ ha
            intro item hop
            rw [hop] at hv
            simpa using hv.1
          exact ih b3 b2 hb3 hv.2 h

/-! ## Claim C5 -/

/-- Claim C5 counterexample: the claim quantifies over every finite
sequence of operations, but putting the same key twice (which the source
does not reject — the spec makes key freshness the caller's
responsibility) leaves one entry in the lookup map and two entries in the
weight vector, so the size half of the invariant fails. -/
theorem bag_duplicate_put_cx :
    ∃ b2 : Bag,
      applyOps ⟨[], [], 0, [], [], 10⟩
        [BagOp.putOp ⟨"a", 1⟩, BagOp.putOp ⟨"a", 1⟩] = some b2 ∧
      b2.item_lookup_dict.length = 1 ∧ b2.weights.length = 2 := by
  refine ⟨⟨["a", "a"], [1, 1], 0 + 1 + 1,
    [("a", ⟨"a", 1⟩)], [(⟨"a", 1⟩, 1), (⟨"a", 1⟩, 1)], 10⟩, ?_, rfl, rfl⟩
  simp [applyOps, applyOp, Bag.put, itemDictInsert, assocLookup,
    priority_weight]

/-- Claim C5 (amended): for every well-formed Bag and every valid sequence
of `put` / `take_using_key` / `change_priority` operations — every `put`
uses a key not presently stored (the caller's responsibility per the spec)
and no operation raises — the stored weight sum afterwards equals the sum
of the weight vector, and the lookup map has exactly one key per weight
entry. -/
theorem bag_invariant_valid_ops :
    ∀ (ops : List BagOp) (bag b2 : Bag), bag.WF → validSeq bag ops = true →
      applyOps bag ops = some b2 →
      b2.weights_sum = b2.weights.sum ∧
        b2.item_lookup_dict.length = b2.weights.length := by
  intro ops bag b2 hwf hv h
  obtain ⟨_, hw2, hs2, _, _⟩ := applyOps_WF ops bag b2 hwf hv h
  refine ⟨hs2, ?_⟩
  rw [hw2, List.length_map]

/-- The starting Bag of the C5 witness: empty, capacity 10. -/
def bag0W : Bag := ⟨[], [], 0, [], [], 10⟩

/-- The C5 witness operations: two fresh puts, a priority change, and a
take. -/
def opsW : List BagOp :=
  [BagOp.putOp ⟨"a", 1⟩, BagOp.putOp ⟨"b", 1⟩,
   BagOp.changeOp "a" 1, BagOp.takeOp "b"]

/-- The Bag after the first witness put. -/
def bagAW : Bag := ⟨["a"], [1], 1, [("a", ⟨"a", 1⟩)], [(⟨"a", 1⟩, 1)], 10⟩

/-- The Bag after the second witness put (the priority change of `"a"` to
its current priority maps it to itself). -/
def bagBW : Bag :=
  ⟨["a", "b"], [1, 1], 2, [("a", ⟨"a", 1⟩), ("b", ⟨"b", 1⟩)],
    [(⟨"a", 1⟩, 1), (⟨"b", 1⟩, 1)], 10⟩

/-- The Bag reached by the C5 witness operations (the priority queue keeps
the taken entry, exactly as in the source). -/
def bag2W : Bag :=
  ⟨["a"], [1], 1, [("a", ⟨"a", 1⟩)], [(⟨"a", 1⟩, 1), (⟨"b", 1⟩, 1)], 10⟩

/-- Step evaluation: the first witness put. -/
theorem bagW_step1 : applyOp bag0W (BagOp.putOp ⟨"a", 1⟩) = some bagAW := by
  norm_num [applyOp, Bag.put, bag0W, bagAW, itemDictInsert, assocLookup,
    priority_weight]

/-- Step evaluation: the second witness put. -/
theorem bagW_step2 : applyOp bagAW (BagOp.putOp ⟨"b", 1⟩) = some bagBW := by
  norm_num [applyOp, Bag.put, bagAW, bagBW, itemDictInsert, assocLookup,
    priority_weight] <;> decide

/-- Step evaluation: the witness priority change (to the same clamped
priority). -/
theorem bagW_step3 : applyOp bagBW (BagOp.changeOp "a" 1) = some bagBW := by
  norm_num [applyOp, Bag.change_priority, bagBW, assocUpdate, assocLookup,
    priority_weight, set_priority] <;> decide

/-- Step evaluation: the witness take. -/
theorem bagW_step4 : applyOp bagBW (BagOp.takeOp "b") = some bag2W := by
  have ht : Bag.take_using_key bagBW "b" = some (⟨"b", 1⟩, bag2W) := by
    simp [Bag.take_using_key, bagBW, bag2W, eraseKey, assocLookup,
      priority_weight, List.filter]
    norm_num
  simp [applyOp, ht]

/-- Claim C5 witness: the amended invariant at a concrete run. -/
theorem bag_invariant_valid_ops_witness :
    bag2W.weights_sum = bag2W.weights.sum ∧
      bag2W.item_lookup_dict.length = bag2W.weights.length :=
  bag_invariant_valid_ops opsW bag0W bag2W
    ⟨rfl, rfl, rfl, by simp [bag0W], by simp [bag0W]⟩
    (by decide)
    (by simp only [applyOps, opsW, bagW_step1, bagW_step2, bagW_step3,
        bagW_step4])

/-! ## Claim C4 -/

/-- `depq_extract_min` never fails on a nonempty queue and always fails on
an empty one. -/
theorem depq_extract_min_none_iff (l : List (Item × ℚ)) :
    depq_extract_min l = none ↔ l = [] := by
  cases l with
  | nil => simp [depq_extract_min]
  | cons e rest =>
      simp only [depq_extract_min]
      cases depq_extract_min rest with
      | none => simp
      | some mr =>
          obtain ⟨m2, r2⟩ := mr
          by_cases hle : e.2 ≤ m2.2 <;> simp [hle]

/-- `depq_extract_min` returns a stored entry of minimal priority. -/
theorem depq_extract_min_spec :
    ∀ (l : List (Item × ℚ)) (m : Item × ℚ) (rest : List (Item × ℚ)),
      depq_extract_min l = some (m, rest) → m ∈ l ∧ ∀ x ∈ l, m.2 ≤ x.2 := by
  intro l
  induction l with
  | nil => intro m rest h; simp [depq_extract_min] at h
  | cons e tail ih =>
      intro m rest h
      simp only [depq_extract_min] at h
      cases he : depq_extract_min tail with
      | none =>
          rw [he] at h
          simp only [Option.some.injEq, Prod.mk.injEq] at h
          have htail : tail = [] := (depq_extract_min_none_iff tail).mp he
          subst htail
          rw [← h.1]
          exact ⟨List.mem_singleton_self e, by simp⟩
      | some er =>
          obtain ⟨m2, rest2⟩ := er
          rw [he] at h
          dsimp only at h
          obtain ⟨hmem2, hmin2⟩ := ih m2 rest2 he
          by_cases hle : e.2 ≤ m2.2
          · rw [if_pos hle] at h
            simp only [Option.some.injEq, Prod.mk.injEq] at h
            rw [← h.1]
            refine ⟨List.mem_cons_self e tail, ?_⟩
            intro x hx
            rcases List.mem_cons.mp hx with hxe | hxt
            · rw [hxe]
            · exact le_trans hle (hmin2 x hxt)
          · rw [if_neg hle] at h
            simp only [Option.some.injEq, Prod.mk.injEq] at h
            rw [← h.1]
            refine ⟨List.mem_cons.mpr (Or.inr hmem2), ?_⟩
            intro x hx
            rcases List.mem_cons.mp hx with hxe | hxt
            · rw [hxe]
              exact le_of_not_le hle
            · exact hmin2 x hxt

/-- A full Bag of capacity 1 holding the minimum-priority item
`⟨"a", 1⟩`. -/
def bagC4 : Bag := ⟨["a"], [1], 1, [("a", ⟨"a", 1⟩)], [(⟨"a", 1⟩, 1)], 1⟩

/-- Claim C4 counterexample: putting `⟨"b", 2⟩` into the full `bagC4`
evicts the minimum-priority element `"a"` (its key is gone from the result)
but the call returns the item that was just put, not the evicted
element. -/
theorem bag_put_return_cx :
    (bagC4.put ⟨"b", 2⟩).map Prod.snd = some ⟨"b", 2⟩ ∧
    (⟨"b", 2⟩ : Item) ≠ ⟨"a", 1⟩ ∧
    (bagC4.put ⟨"b", 2⟩).bind
      (fun pr => assocLookup pr.1.item_lookup_dict "a") = none := by
  refine ⟨by decide, by decide, by decide⟩

/-- Claim C4 (amended): when the insertion overflows the capacity, `put`
does remove a minimum-priority element (of the priority queue, here in
sync with the stored items): some stored element of minimal priority
disappears from the lookup map, whose size returns to its old value — but
the call returns the item that was just put, not the evicted element. -/
theorem bag_put_overflow_amended :
    ∀ (bag : Bag) (item : Item),
      bag.WF →
      assocLookup bag.item_lookup_dict item.key = none →
      bag.ordered_items =
        bag.item_lookup_dict.map (fun kv => (kv.2, kv.2.priority)) →
      bag.item_keys.length + 1 > bag.capacity →
      ∃ (b2 : Bag) (ev : Item),
        bag.put item = some (b2, item) ∧
        ev ∈ (itemDictInsert bag.item_lookup_dict item).map Prod.snd ∧
        (∀ x ∈ (itemDictInsert bag.item_lookup_dict item).map Prod.snd,
          ev.priority ≤ x.priority) ∧
        b2.item_lookup_dict =
          eraseKey (itemDictInsert bag.item_lookup_dict item) ev.key ∧
        b2.item_lookup_dict.length = bag.item_lookup_dict.length := by
  intro bag item hwf hfresh hsync hover
  obtain ⟨hk, hw, hs, hcons, hnd⟩ := hwf
  have hins := itemDictInsert_fresh bag.item_lookup_dict item hfresh
  have hnotmem := lookup_none_not_mem bag.item_lookup_dict item.key hfresh
  have hnd2 : ((bag.item_lookup_dict ++ [(item.key, item)]).map Prod.fst).Nodup := by
    rw [List.map_append]
    simp only [List.map_cons, List.map_nil]
    rw [List.nodup_append]
    exact ⟨hnd, List.nodup_singleton _, by simpa using hnotmem⟩
  have hcons2 : ∀ kv ∈ bag.item_lookup_dict ++ [(item.key, item)],
      kv.2.key = kv.1 := by
    intro kv hkv
    rcases List.mem_append.mp hkv with hmem | hmem
    · exact hcons kv hmem
    · simp only [List.mem_singleton] at hmem
      rw [hmem]
  have hord : bag.ordered_items ++ [(item, item.priority)] =
      (bag.item_lookup_dict ++ [(item.key, item)]).map
        (fun kv => (kv.2, kv.2.priority)) := by
    rw [hsync, List.map_append]
    rfl
  cases he : depq_extract_min (bag.ordered_items ++ [(item, item.priority)]) with
  | none =>
      exfalso
      have hnil := (depq_extract_min_none_iff _).mp he
      rw [hord] at hnil
      simp at hnil
  | some er =>
      obtain ⟨m, rest⟩ := er
      obtain ⟨hmmem, hmmin⟩ := depq_extract_min_spec _ m rest he
      rw [hord] at hmmem
      obtain ⟨kv, hkvmem, hfkv⟩ := List.mem_map.mp hmmem
      have hm1 : m.1 = kv.2 := by rw [← hfkv]
      have hm2 : m.2 = kv.2.priority := by rw [← hfkv]
      have hkey : kv.2.key = kv.1 := hcons2 kv hkvmem
      have hlook : assocLookup (bag.item_lookup_dict ++ [(item.key, item)]) kv.1 =
          some kv.2 := lookup_of_mem_nodup _ kv hnd2 hkvmem
      have hlook2 : assocLookup (itemDictInsert bag.item_lookup_dict item) kv.1 =
          some kv.2 := by rw [hins]; exact hlook
      have hcond : (bag.item_keys ++ [item.key]).length > bag.capacity := by
        simpa using hover
      refine ⟨{ item_keys := (((bag.item_keys ++ [item.key]).zip
                  (bag.weights ++ [priority_weight item.priority])).filter
                    (fun p => ¬ p.1 = kv.1)).map Prod.fst,
                weights := (((bag.item_keys ++ [item.key]).zip
                  (bag.weights ++ [priority_weight item.priority])).filter
                    (fun p => ¬ p.1 = kv.1)).map Prod.snd,
                weights_sum := bag.weights_sum + priority_weight item.priority -
                  priority_weight kv.2.priority,
                item_lookup_dict :=
                  eraseKey (itemDictInsert bag.item_lookup_dict item) kv.1,
                ordered_items := rest,
                capacity := bag.capacity }, kv.2, ?_, ?_, ?_, ?_, ?_⟩
      · simp only [Bag.put]
        rw [if_pos hcond]
        unfold Bag.take_min
        dsimp only
        rw [he]
        dsimp only
        unfold Bag.take_using_key
        dsimp only
        rw [hm1, hkey, hlook2]
        rfl
      · rw [hins]
        exact List.mem_map_of_mem Prod.snd hkvmem
      · rw [hins]
        intro x hx
        obtain ⟨kv2, hkv2, hxeq⟩ := List.mem_map.mp hx
        have hx2 : ((fun kv => (kv.2, kv.2.priority)) kv2) ∈
            bag.ordered_items ++ [(item, item.priority)] := by
          rw [hord]
          exact List.mem_map_of_mem _ hkv2
        have hle := hmmin _ hx2
        rw [hm2] at hle
        rw [← hxeq]
        exact hle
      · rw [hkey]
      · dsimp only
        rw [hins]
        have hel := erase_length (bag.item_lookup_dict ++ [(item.key, item)])
          kv.1 kv.2 hnd2 hlook
        simp only [List.length_append, List.length_cons, List.length_nil] at hel
        unfold eraseKey
        omega

/-- Claim C4 witness: the amended statement at the concrete full Bag
`bagC4` and the fresh item `⟨"b", 2⟩`. -/
theorem bag_put_overflow_amended_witness :
    ∃ (b2 : Bag) (ev : Item),
      bagC4.put ⟨"b", 2⟩ = some (b2, ⟨"b", 2⟩) ∧
      ev ∈ (itemDictInsert bagC4.item_lookup_dict ⟨"b", 2⟩).map Prod.snd ∧
      (∀ x ∈ (itemDictInsert bagC4.item_lookup_dict ⟨"b", 2⟩).map Prod.snd,
        ev.priority ≤ x.priority) ∧
      b2.item_lookup_dict =
        eraseKey (itemDictInsert bagC4.item_lookup_dict ⟨"b", 2⟩) ev.key ∧
      b2.item_lookup_dict.length = bagC4.item_lookup_dict.length :=
  bag_put_overflow_amended bagC4 ⟨"b", 2⟩
    ⟨rfl, rfl, by simp [bagC4], by decide, by decide⟩
    (by decide) rfl (by decide)
